import Mathlib

/-! # spimpl::impl_ptr (Private.hpp): a shallow embedding

The wrapper `impl_ptr<T, Deleter, Copier>` of `src/Private.hpp` is embedded as
state-passing functions over an explicit program state:

* a heap of owned instances (`new` / `delete` / field access),
* a store of live wrapper objects, addressed by reference, so that object
  identity (`this == &r`) and aliasing of the two operands are expressible,
* a ghost trace of every call made through a release or duplication strategy.

A result of `none` stands for undefined behaviour (a call through a null
function pointer, a read of a dead object, `delete` of a dangling address).
The members of `std::unique_ptr` follow the effects the C++ standard gives
them in [unique.ptr.single].
-/

namespace spimpl

/-! ## Addresses and the heap of owned instances -/

/-- An address `T*`; the null address is `0`. -/
abbrev pointer := Nat

/-- The null sentinel. -/
def nullptr : pointer := 0

/-- The heap: the live instances of the owned type, each at its address. -/
structure Heap (T : Type) where
  cells : List (pointer × T)

/-- The instance at address `p`, if `p` is live. -/
def Heap.read {T : Type} (h : Heap T) (p : pointer) : Option T :=
  h.cells.lookup p

/-- An address that is neither null nor live: one past the largest live one. -/
def Heap.fresh {T : Type} (h : Heap T) : pointer :=
  (h.cells.map Prod.fst).foldr max 0 + 1

/-- The expression `new T(v)`: a fresh non-null address now holding `v`. -/
def Heap.new {T : Type} (h : Heap T) (v : T) : pointer × Heap T :=
  (h.fresh, ⟨(h.fresh, v) :: h.cells⟩)

/-- The expression `delete p`: nothing for the null address, undefined for an
address that is not live, otherwise the instance is destroyed. -/
def Heap.delete {T : Type} (h : Heap T) (p : pointer) : Option (Heap T) :=
  if p = nullptr then some h
  else match h.read p with
    | none => none
    | some _ => some ⟨h.cells.filter fun c => c.1 != p⟩

/-- An assignment through `p` (such as `p->m_x = b`): undefined unless `p` is live. -/
def Heap.write {T : Type} (h : Heap T) (p : pointer) (v : T) : Option (Heap T) :=
  match h.read p with
  | none => none
  | some _ => some ⟨(p, v) :: h.cells.filter fun c => c.1 != p⟩

/-! ## Strategies -/

/-- The code of a release strategy: a function `void(T*)`. -/
abbrev deleter_fn (T : Type) := pointer → Heap T → Option (Heap T)

/-- The code of a duplication strategy: a function `T*(T*)`. -/
abbrev copier_fn (T : Type) := pointer → Heap T → Option (pointer × Heap T)

/-- The type `deleter_type` (by default `void(*)(T*)`): `none` is the
value-initialised `deleter_type{}`, a null function pointer. -/
abbrev deleter_type (T : Type) := Option (deleter_fn T)

/-- The type `copier_type` (by default `T*(*)(T*)`): `none` is the
value-initialised `copier_type{}`, a null function pointer. -/
abbrev copier_type (T : Type) := Option (copier_fn T)

namespace details

/-- The function `details::default_copy`: `return new T(*src);`. Reading
`*src` is undefined when `src` is not live; the owned type is a value type,
its copy construction copies the value. -/
def default_copy {T : Type} : copier_fn T := fun src h =>
  match h.read src with
  | none => none
  | some v => some (h.new v)

/-- The function `details::default_delete`: `delete p;`. -/
def default_delete {T : Type} : deleter_fn T := fun p h => h.delete p

end details

/-! ## Objects and the program state -/

/-- The class `std::unique_ptr<T, deleter_type>`: the stored address and the deleter. -/
structure unique_ptr (T : Type) where
  ptr : pointer
  deleter : deleter_type T

/-- The class `impl_ptr<T, Deleter, Copier>`: its two data members. -/
structure impl_ptr (T : Type) where
  ptr_ : unique_ptr T
  copier_ : copier_type T

/-- One call made through a strategy, as recorded in the ghost trace. -/
inductive Event (T : Type) where
  | release (d : deleter_fn T) (p : pointer)
  | duplicate (c : copier_fn T) (p : pointer)

/-- The program state. A wrapper object is named by its index in `impls`, a
stand-alone `unique_ptr` by its index in `uniqs`; a destroyed object leaves
`none` in its slot. -/
structure State (T : Type) where
  heap : Heap T
  impls : List (Option (impl_ptr T))
  uniqs : List (Option (unique_ptr T))
  trace : List (Event T)

/-- A reference to a `unique_ptr`: a stand-alone object, or the member `ptr_`
of a wrapper object. -/
inductive uref where
  | obj (i : Nat)
  | member (i : Nat)
  deriving DecidableEq

/-- The wrapper object behind a reference; `none` when there is none. -/
def State.impl {T : Type} (s : State T) (i : Nat) : Option (impl_ptr T) :=
  s.impls[i]?.join

/-- Overwrite the wrapper object `i`. -/
def State.set_impl {T : Type} (s : State T) (i : Nat) (w : impl_ptr T) : State T :=
  { s with impls := s.impls.set i (some w) }

/-- The `unique_ptr` behind a reference. -/
def State.uniq {T : Type} (s : State T) : uref → Option (unique_ptr T)
  | .obj i => s.uniqs[i]?.join
  | .member i => (s.impl i).map fun w => w.ptr_

/-- Overwrite the `unique_ptr` behind a reference. -/
def State.set_uniq {T : Type} (s : State T) (r : uref) (u : unique_ptr T) : Option (State T) :=
  match r with
  | .obj i => some { s with uniqs := s.uniqs.set i (some u) }
  | .member i => (s.impl i).map fun w => s.set_impl i { w with ptr_ := u }

/-- A new wrapper object holding `w` comes to life; its reference is returned. -/
def State.new_impl {T : Type} (s : State T) (w : impl_ptr T) : Nat × State T :=
  (s.impls.length, { s with impls := s.impls ++ [some w] })

/-- A new stand-alone `unique_ptr` holding `u` comes to life. -/
def State.new_uniq {T : Type} (s : State T) (u : unique_ptr T) : Nat × State T :=
  (s.uniqs.length, { s with uniqs := s.uniqs ++ [some u] })

/-- A call `d(p)` through a release strategy; undefined through a null one. -/
def call_deleter {T : Type} (d : deleter_type T) (p : pointer) (s : State T) : Option (State T) :=
  match d with
  | none => none
  | some f => (f p s.heap).map fun h =>
      { s with heap := h, trace := s.trace ++ [Event.release f p] }

/-- A call `c(p)` through a duplication strategy; undefined through a null one. -/
def call_copier {T : Type} (c : copier_type T) (p : pointer) (s : State T) :
    Option (pointer × State T) :=
  match c with
  | none => none
  | some f => (f p s.heap).map fun r =>
      (r.1, { s with heap := r.2, trace := s.trace ++ [Event.duplicate f p] })

/-! ## std::unique_ptr -/

namespace unique_ptr

/-- The member `get()`. -/
def get {T : Type} (u : unique_ptr T) : pointer := u.ptr

/-- The member `get_deleter()`. -/
def get_deleter {T : Type} (u : unique_ptr T) : deleter_type T := u.deleter

/-- The conversion `explicit operator bool`: `get() != nullptr`. -/
def operator_bool {T : Type} (u : unique_ptr T) : Bool := u.get != nullptr

/-- The member `release()`: returns the stored address and stores null. -/
def release {T : Type} (this : uref) (s : State T) : Option (pointer × State T) := do
  let u ← s.uniq this
  let s ← s.set_uniq this { u with ptr := nullptr }
  pure (u.ptr, s)

/-- The member `reset(p)`: stores `p`, then calls the deleter on the old
address if that was not null. -/
def reset {T : Type} (this : uref) (p : pointer) (s : State T) : Option (State T) := do
  let u ← s.uniq this
  let s ← s.set_uniq this { u with ptr := p }
  if u.ptr ≠ nullptr then call_deleter u.deleter u.ptr s else pure s

/-- The move constructor `unique_ptr(unique_ptr&& u)`, as a value: the new
object takes `u.release()` and the deleter of `u`. -/
def move_ctor {T : Type} (u : uref) (s : State T) : Option (unique_ptr T × State T) := do
  let (p, s) ← release u s
  let src ← s.uniq u
  pure (⟨p, src.deleter⟩, s)

/-- The move assignment `operator=(unique_ptr&& u)`: `reset(u.release())`
followed by `get_deleter() = std::forward<D>(u.get_deleter())`. -/
def move_assign {T : Type} (this u : uref) (s : State T) : Option (State T) := do
  let (p, s) ← release u s
  let s ← reset this p s
  let src ← s.uniq u
  let dst ← s.uniq this
  s.set_uniq this { dst with deleter := src.deleter }

/-- The member `swap(u)`: exchanges the stored addresses and the deleters. -/
def swap {T : Type} (this u : uref) (s : State T) : Option (State T) := do
  let a ← s.uniq this
  let b ← s.uniq u
  let s ← s.set_uniq this b
  s.set_uniq u a

/-- The destructor, on the value the dying object holds: calls the deleter on
the stored address if that is not null. -/
def destructor {T : Type} (u : unique_ptr T) (s : State T) : Option (State T) :=
  if u.ptr ≠ nullptr then call_deleter u.deleter u.ptr s else some s

end unique_ptr

/-! ## impl_ptr -/

namespace impl_ptr

/-- The constructor `impl_ptr()` (lines 75-76), as a value: a null address with
`deleter_type{}` and `copier_type{}`. -/
def ctor_default {T : Type} : impl_ptr T := ⟨⟨nullptr, none⟩, none⟩

/-- The constructor `impl_ptr(std::nullptr_t)` (lines 78-79): delegates to `impl_ptr()`. -/
def ctor_nullptr {T : Type} : impl_ptr T := ctor_default

/-- The constructor `impl_ptr(pointer p, D&& d, C&& c)` (lines 81-88), as a value. -/
def ctor {T : Type} (p : pointer) (d : deleter_type T) (c : copier_type T) : impl_ptr T :=
  ⟨⟨p, d⟩, c⟩

/-- The constructor `impl_ptr(U *u)` (lines 90-96): the default strategies. -/
def ctor_raw {T : Type} (u : pointer) : impl_ptr T :=
  ctor u (some details.default_delete) (some details.default_copy)

/-- The member `get()` (line 198). -/
def get {T : Type} (w : impl_ptr T) : pointer := w.ptr_.get

/-- The conversion `explicit operator bool` (line 211). -/
def operator_bool {T : Type} (w : impl_ptr T) : Bool := w.ptr_.operator_bool

/-- The member `get_deleter()` (lines 213-214). -/
def get_deleter {T : Type} (w : impl_ptr T) : deleter_type T := w.ptr_.get_deleter

/-- The member `get_copier()` (lines 216-217). -/
def get_copier {T : Type} (w : impl_ptr T) : copier_type T := w.copier_

/-- The member `clone()` (lines 188-194); the wrapper it returns is a value
that is not yet an object of the store. -/
def clone {T : Type} (this : Nat) (s : State T) : Option (impl_ptr T × State T) := do
  let w ← s.impl this
  let (p, s) ← if w.ptr_.operator_bool then call_copier w.copier_ w.ptr_.get s
    else pure (nullptr, s)
  pure (ctor p w.ptr_.get_deleter w.copier_, s)

/-- The destructor (implicit): destroys the member `ptr_`; the object is dead afterwards. -/
def destructor {T : Type} (this : Nat) (s : State T) : Option (State T) := do
  let w ← s.impl this
  let s ← unique_ptr.destructor w.ptr_ s
  pure { s with impls := s.impls.set this none }

/-- The move constructor `impl_ptr(impl_ptr&& r) = default` (line 102):
member-wise; the reference of the new object is returned. -/
def move_ctor {T : Type} (r : Nat) (s : State T) : Option (Nat × State T) := do
  let (u, s) ← unique_ptr.move_ctor (.member r) s
  let src ← s.impl r
  pure (s.new_impl ⟨u, src.copier_⟩)

/-- The copy constructor (lines 98-100): delegates to the move constructor on
the temporary `r.clone()`, which is destroyed afterwards. -/
def copy_ctor {T : Type} (r : Nat) (s : State T) : Option (Nat × State T) := do
  let (tmp, s) ← clone r s
  let (t, s) := s.new_impl tmp
  let (this, s) ← move_ctor t s
  let s ← destructor t s
  pure (this, s)

/-- The move assignment `operator=(impl_ptr&& r) = default` (line 146): member-wise. -/
def move_assign {T : Type} (this r : Nat) (s : State T) : Option (State T) := do
  let s ← unique_ptr.move_assign (.member this) (.member r) s
  let src ← s.impl r
  let dst ← s.impl this
  pure (s.set_impl this { dst with copier_ := src.copier_ })

/-- The converting move assignment `operator=(impl_ptr<U, D, C>&& u)` (lines
148-158): `ptr_ = std::move(u.ptr_); copier_ = std::move(u.copier_);`, the
conversions of the address and of the strategies being the identity. -/
def move_assign_conv {T : Type} (this u : Nat) (s : State T) : Option (State T) := do
  let s ← unique_ptr.move_assign (.member this) (.member u) s
  let src ← s.impl u
  let dst ← s.impl this
  pure (s.set_impl this { dst with copier_ := src.copier_ })

/-- The copy assignment `operator=(const impl_ptr& r)` (lines 138-144). -/
def copy_assign {T : Type} (this r : Nat) (s : State T) : Option (State T) :=
  if this = r then (s.impl this).map fun _ => s
  else do
    let (tmp, s) ← clone r s
    let (t, s) := s.new_impl tmp
    let s ← move_assign this t s
    destructor t s

/-- The member `swap(impl_ptr& u)` (lines 200-205): `ptr_.swap(u.ptr_)`, then
`std::swap` of the copiers through a temporary. -/
def swap {T : Type} (this u : Nat) (s : State T) : Option (State T) := do
  let s ← unique_ptr.swap (.member this) (.member u) s
  let a ← s.impl this
  let tmp := a.copier_
  let b ← s.impl u
  let s := s.set_impl this { a with copier_ := b.copier_ }
  let b ← s.impl u
  pure (s.set_impl u { b with copier_ := tmp })

/-- The member `release()` (line 207). -/
def release {T : Type} (this : Nat) (s : State T) : Option (pointer × State T) :=
  unique_ptr.release (.member this) s

/-- The member `release_unique()` (line 209): `return std::move(ptr_);`. -/
def release_unique {T : Type} (this : Nat) (s : State T) :
    Option (unique_ptr T × State T) :=
  unique_ptr.move_ctor (.member this) s

end impl_ptr

/-- The free function `swap(l, r)` (lines 235-239). -/
def swap {T : Type} (l r : Nat) (s : State T) : Option (State T) :=
  impl_ptr.swap l r s

/-- The factory `make_impl<T>(args...)` (lines 356-360); `mk` is the
constructor of the owned type that `args` selects. -/
def make_impl {A T : Type} (mk : A → T) (args : A) (s : State T) : impl_ptr T × State T :=
  let (p, h) := s.heap.new (mk args)
  (impl_ptr.ctor p (some details.default_delete) (some details.default_copy),
    { s with heap := h })

/-- The factory `make_impl_nocopy<T>(args...)` (lines 368-373). -/
def make_impl_nocopy {A T : Type} (mk : A → T) (args : A) (s : State T) :
    unique_ptr T × State T :=
  let (p, h) := s.heap.new (mk args)
  (⟨p, some details.default_delete⟩, { s with heap := h })

/-! ## Comparisons -/

/-- An implicit conversion of an address to another pointer type, as `==` and
`std::less<CT>` apply it to bring the addresses of two instantiations to their
common pointer type: a derived-to-base conversion moves a non-null address to
the base subobject, and the null address converts to the null address. -/
structure ptr_conv where
  conv : pointer → pointer
  map_null : conv nullptr = nullptr

/-- No conversion: the address has the common pointer type already, as for two
wrappers of one instantiation. -/
def ptr_conv.same : ptr_conv := ⟨fun p => p, rfl⟩

/-- The function object `std::less` on addresses: the order of the flat address space. -/
def less (a b : pointer) : Bool := decide (a < b)

/-- The operator `==` of two wrappers (lines 242-246): `l.get() == r.get()`,
which compares the two addresses in their common pointer type, reached by `c1`
from the pointer type of `l` and by `c2` from the pointer type of `r`. -/
def operator_eq {T1 T2 : Type} (c1 c2 : ptr_conv) (l : impl_ptr T1) (r : impl_ptr T2) :
    Bool :=
  c1.conv l.get == c2.conv r.get

/-- The operator `!=` of two wrappers (lines 248-252). -/
def operator_ne {T1 T2 : Type} (c1 c2 : ptr_conv) (l : impl_ptr T1) (r : impl_ptr T2) :
    Bool :=
  !(operator_eq c1 c2 l r)

/-- The operator `p == nullptr` (lines 281-285). -/
def operator_eq_null {T : Type} (p : impl_ptr T) : Bool := !p.operator_bool

/-- The operator `nullptr == p` (lines 287-291). -/
def null_operator_eq {T : Type} (p : impl_ptr T) : Bool := !p.operator_bool

/-- The operator `p != nullptr` (lines 293-297). -/
def operator_ne_null {T : Type} (p : impl_ptr T) : Bool := p.operator_bool

/-- The operator `nullptr != p` (lines 299-303). -/
def null_operator_ne {T : Type} (p : impl_ptr T) : Bool := p.operator_bool

/-- The operator `l < nullptr` (lines 305-310). -/
def operator_lt_null {T : Type} (l : impl_ptr T) : Bool := less l.get nullptr

/-- The operator `nullptr < p` (lines 312-317). -/
def null_operator_lt {T : Type} (p : impl_ptr T) : Bool := less nullptr p.get

/-- The operator `p > nullptr` (lines 319-323). -/
def operator_gt_null {T : Type} (p : impl_ptr T) : Bool := null_operator_lt p

/-- The operator `nullptr > p` (lines 325-329). -/
def null_operator_gt {T : Type} (p : impl_ptr T) : Bool := operator_lt_null p

/-- The operator `p <= nullptr` (lines 331-335). -/
def operator_le_null {T : Type} (p : impl_ptr T) : Bool := !(null_operator_lt p)

/-- The operator `nullptr <= p` (lines 337-341). -/
def null_operator_le {T : Type} (p : impl_ptr T) : Bool := !(operator_lt_null p)

/-- The operator `p >= nullptr` (lines 343-347). -/
def operator_ge_null {T : Type} (p : impl_ptr T) : Bool := !(operator_lt_null p)

/-- The operator `nullptr >= p` (lines 349-353). -/
def null_operator_ge {T : Type} (p : impl_ptr T) : Bool := !(null_operator_lt p)

/-! ## The owned type of Test.cpp -/

/-- The structure `Test::Private` (Test.cpp, lines 8-17): one field `m_x`. -/
structure Private where
  m_x : Int
  deriving DecidableEq, Repr

/-- The constructor `Private(int i, int j) : m_x(i)` (Test.cpp, lines 12-16). -/
def Private.ctor (args : Int × Int) : Private := ⟨args.1⟩

/-- The assignment `p->m_x = b` through an address. -/
def set_m_x (p : pointer) (b : Int) (h : Heap Private) : Option (Heap Private) :=
  match h.read p with
  | none => none
  | some v => h.write p { v with m_x := b }

/-! ## The scenario of the spec: copy, then mutate the copy -/

/-- The client code `auto W1 = make_impl<Private>(a, j); auto W2 = W1;
W2->m_x = b;`. The references of `W1` and `W2` are returned with the final state. -/
def copy_then_mutate (a b j : Int) (s : State Private) :
    Option (Nat × Nat × State Private) := do
  let made := make_impl Private.ctor (a, j) s
  let o := made.2.new_impl made.1
  let (w2, s) ← impl_ptr.copy_ctor o.1 o.2
  let x2 ← s.impl w2
  let h ← set_m_x x2.get b s.heap
  pure (o.1, w2, { s with heap := h })

/-- The state of a program that has created nothing yet. -/
def State.init {T : Type} : State T :=
  { heap := ⟨[]⟩, impls := [], uniqs := [], trace := [] }

/-! ## Example states -/

/-- A release strategy that leaves the instance alive (a pool hands it out again). -/
def keep_alive : deleter_fn Private := fun _ h => some h

/-- A duplication strategy that hands back the address it is given. -/
def same_address : copier_fn Private := fun p h => some (p, h)

/-- A heap with two live instances: `m_x = 7` at address 1, `m_x = 3` at address 2. -/
def heap2 : Heap Private := ⟨[(1, ⟨7⟩), (2, ⟨3⟩)]⟩

/-- Three wrapper objects over `heap2`: object 0 owns address 1 and object 1
owns address 2, both with the default strategies; object 2 is default-constructed. -/
def st3 : State Private :=
  { heap := heap2
    impls := [some (impl_ptr.ctor_raw 1), some (impl_ptr.ctor_raw 2), some impl_ptr.ctor_default]
    uniqs := []
    trace := [] }

/-- One wrapper object owning address 1 with the strategies `keep_alive` and `same_address`. -/
def st_custom : State Private :=
  { heap := heap2
    impls := [some (impl_ptr.ctor 1 (some keep_alive) (some same_address))]
    uniqs := []
    trace := [] }

/-! ## The hash adapter -/

/-- The call operator of `std::hash<spimpl::impl_ptr<T, D, C>>` (lines 376-389):
`hash<pointer>()(p.get())`; `hash_pointer` is the library's `std::hash<T*>`. -/
def std_hash {T : Type} (hash_pointer : pointer → Nat) (p : impl_ptr T) : Nat :=
  hash_pointer p.get

/-! ## The exclusive variant -/

/-- The client code `auto E1 = make_impl_nocopy<Private>(v, j); auto E2 =
std::move(E1);` on `unique_impl_ptr` (lines 365-373, and `Test::Test` of
Test.cpp). The references of `E1` and `E2` are returned with the final state. -/
def move_exclusive (v j : Int) (s : State Private) : Option (Nat × Nat × State Private) := do
  let made := make_impl_nocopy Private.ctor (v, j) s
  let e1 := made.2.new_uniq made.1
  let (u, s) ← unique_ptr.move_ctor (.obj e1.1) e1.2
  let e2 := s.new_uniq u
  pure (e1.1, e2.1, e2.2)

/-! ## Programs over the public operations -/

/-- One public operation on the wrappers of a state that takes no raw address
from its caller: the two empty constructors, the factory, `clone()` into a
new object, copy and move construction and assignment, `swap`, `release()`,
`release_unique()` into a new handle, and destruction. Operands are live objects. -/
inductive Step {T : Type} : State T → State T → Prop where
  | ctor_default (s : State T) : Step s (s.new_impl impl_ptr.ctor_default).2
  | ctor_nullptr (s : State T) : Step s (s.new_impl impl_ptr.ctor_nullptr).2
  | make_impl {A : Type} (mk : A → T) (args : A) (s : State T) :
      Step s ((make_impl mk args s).2.new_impl (make_impl mk args s).1).2
  | clone (s s1 : State T) (this : Nat) (x w : impl_ptr T) :
      s.impl this = some x → impl_ptr.clone this s = some (w, s1) → Step s (s1.new_impl w).2
  | copy_ctor (s s1 : State T) (r n : Nat) (x : impl_ptr T) :
      s.impl r = some x → impl_ptr.copy_ctor r s = some (n, s1) → Step s s1
  | copy_assign (s s1 : State T) (this r : Nat) (b x : impl_ptr T) :
      s.impl this = some b → s.impl r = some x →
      impl_ptr.copy_assign this r s = some s1 → Step s s1
  | move_ctor (s s1 : State T) (r n : Nat) (x : impl_ptr T) :
      s.impl r = some x → impl_ptr.move_ctor r s = some (n, s1) → Step s s1
  | move_assign (s s1 : State T) (this r : Nat) (b x : impl_ptr T) :
      s.impl this = some b → s.impl r = some x →
      impl_ptr.move_assign this r s = some s1 → Step s s1
  | move_assign_conv (s s1 : State T) (this r : Nat) (b x : impl_ptr T) :
      s.impl this = some b → s.impl r = some x →
      impl_ptr.move_assign_conv this r s = some s1 → Step s s1
  | swap (s s1 : State T) (a b : Nat) (x y : impl_ptr T) :
      s.impl a = some x → s.impl b = some y → impl_ptr.swap a b s = some s1 → Step s s1
  | release (s s1 : State T) (this : Nat) (p : pointer) (x : impl_ptr T) :
      s.impl this = some x → impl_ptr.release this s = some (p, s1) → Step s s1
  | release_unique (s s1 : State T) (this : Nat) (u : unique_ptr T) (x : impl_ptr T) :
      s.impl this = some x → impl_ptr.release_unique this s = some (u, s1) →
      Step s (s1.new_uniq u).2
  | destructor (s s1 : State T) (this : Nat) (x : impl_ptr T) :
      s.impl this = some x → impl_ptr.destructor this s = some s1 → Step s s1

/-- The states a program reaches from the initial state by the operations of `Step`. -/
inductive Reachable {T : Type} : State T → Prop where
  | init : Reachable State.init
  | step (s s1 : State T) : Reachable s → Step s s1 → Reachable s1

/-- The ownership discipline of a store `f` of wrappers over a heap `h`: a
non-empty wrapper carries the default strategies and its address is live, and
no two wrapper objects own the same address. -/
def Owned {T : Type} (f : Nat → Option (impl_ptr T)) (h : Heap T) : Prop :=
  (∀ i w, f i = some w → w.get ≠ nullptr →
    w.get_deleter = some details.default_delete ∧
    w.get_copier = some details.default_copy ∧ ∃ v, h.read w.get = some v) ∧
  (∀ i j wi wj, f i = some wi → f j = some wj → wi.get ≠ nullptr → wi.get = wj.get → i = j)

/-- Two wrappers over one raw address: `W1` from the factory, `W2` from
`impl_ptr(W1.get())`, the constructor of lines 90-96. -/
def st_shared : State Private :=
  let made := make_impl Private.ctor (7, 6) State.init
  let w1 := made.2.new_impl made.1
  (w1.2.new_impl (impl_ptr.ctor_raw made.1.get)).2

/-- The state after `auto W1 = make_impl<Private>(7, 6);` from the initial state. -/
def st_made : State Private :=
  ((make_impl Private.ctor (7, 6) State.init).2.new_impl
    (make_impl Private.ctor (7, 6) State.init).1).2

/-- The state after `auto W2 = W1;` in `st_made`: `W1` is object 0 at address 1,
`W2` is object 2 at address 2, and the slot of the temporary is dead. -/
def st_copied : State Private :=
  { heap := ⟨[(2, ⟨7⟩), (1, ⟨7⟩)]⟩
    impls := [some (impl_ptr.ctor_raw 1), none, some (impl_ptr.ctor_raw 2)]
    uniqs := []
    trace := [Event.duplicate details.default_copy 1] }

/-! ## The store -/

theorem impl_lt_length {T : Type} {s : State T} {i : Nat} {w : impl_ptr T}
    (h : s.impl i = some w) : i < s.impls.length := by
  unfold State.impl at h
  by_contra hlt
  rw [List.getElem?_eq_none (Nat.le_of_not_lt hlt)] at h
  simp at h

theorem impl_set_impl_self {T : Type} {s : State T} {i : Nat} {w0 : impl_ptr T}
    (h : s.impl i = some w0) (w : impl_ptr T) : (s.set_impl i w).impl i = some w := by
  have hlt := impl_lt_length h
  simp [State.impl, State.set_impl, List.getElem?_set_self hlt]

theorem impl_set_impl_ne {T : Type} (s : State T) {i j : Nat} (hij : i ≠ j)
    (w : impl_ptr T) : (s.set_impl i w).impl j = s.impl j := by
  simp [State.impl, State.set_impl, List.getElem?_set_ne hij]

theorem impl_new_impl_old {T : Type} {s : State T} {i : Nat} {w0 : impl_ptr T}
    (h : s.impl i = some w0) (w : impl_ptr T) : (s.new_impl w).2.impl i = some w0 := by
  have hlt := impl_lt_length h
  show ((s.impls ++ [some w])[i]?).join = some w0
  rw [List.getElem?_append_left hlt]
  exact h

theorem impl_new_impl_new {T : Type} (s : State T) (w : impl_ptr T) :
    (s.new_impl w).2.impl (s.new_impl w).1 = some w := by
  simp [State.impl, State.new_impl]

/-! ## The heap -/

theorem lookup_le_foldr_max {T : Type} (cells : List (pointer × T)) (p : pointer) (v : T)
    (h : cells.lookup p = some v) : p ≤ (cells.map Prod.fst).foldr max 0 := by
  induction cells with
  | nil => simp at h
  | cons c cs ih =>
    obtain ⟨k, b⟩ := c
    rw [List.lookup_cons] at h
    by_cases hk : p = k
    · subst hk
      simp
    · have hbeq : (p == k) = false := by simpa using hk
      rw [hbeq] at h
      have := ih h
      simp only [List.map_cons, List.foldr_cons]
      exact le_trans this (le_max_right _ _)

theorem read_lt_fresh {T : Type} {h : Heap T} {p : pointer} {v : T}
    (hr : h.read p = some v) : p < h.fresh :=
  Nat.lt_succ_of_le (lookup_le_foldr_max h.cells p v hr)

theorem read_fresh {T : Type} (h : Heap T) : h.read h.fresh = none := by
  cases hr : h.read h.fresh with
  | none => rfl
  | some v => exact absurd (read_lt_fresh hr) (lt_irrefl _)

theorem read_new_self {T : Type} (h : Heap T) (v : T) :
    (h.new v).2.read (h.new v).1 = some v := by
  simp [Heap.new, Heap.read, List.lookup_cons]

theorem read_new_of_ne {T : Type} (h : Heap T) (v : T) {p : pointer} (hp : p ≠ h.fresh) :
    (h.new v).2.read p = h.read p := by
  have hbeq : (p == h.fresh) = false := by simpa using hp
  simp [Heap.new, Heap.read, List.lookup_cons, hbeq]

theorem lookup_filter_ne {T : Type} (cells : List (pointer × T)) {p q : pointer}
    (hpq : q ≠ p) : (cells.filter fun c => c.1 != p).lookup q = cells.lookup q := by
  induction cells with
  | nil => rfl
  | cons c cs ih =>
    obtain ⟨k, b⟩ := c
    by_cases hk : k = p
    · subst hk
      have hbeq : (q == k) = false := by simpa using hpq
      simp [List.filter_cons, List.lookup_cons, hbeq, ih]
    · by_cases hq : q = k
      · subst hq
        simp [List.filter_cons, List.lookup_cons, hk]
      · have hbeq : (q == k) = false := by simpa using hq
        simp [List.filter_cons, List.lookup_cons, hk, hbeq, ih]

theorem read_write_self {T : Type} {h h1 : Heap T} {p : pointer} {v : T}
    (hw : h.write p v = some h1) : h1.read p = some v := by
  unfold Heap.write at hw
  cases hr : h.read p with
  | none => simp [hr] at hw
  | some v0 =>
    simp only [hr, Option.some.injEq] at hw
    subst hw
    simp [Heap.read, List.lookup_cons]

theorem read_write_of_ne {T : Type} {h h1 : Heap T} {p q : pointer} {v : T}
    (hw : h.write p v = some h1) (hpq : q ≠ p) : h1.read q = h.read q := by
  unfold Heap.write at hw
  cases hr : h.read p with
  | none => simp [hr] at hw
  | some v0 =>
    simp only [hr, Option.some.injEq] at hw
    subst hw
    have hbeq : (q == p) = false := by simpa using hpq
    simp [Heap.read, List.lookup_cons, hbeq, lookup_filter_ne h.cells hpq]

theorem read_delete_of_ne {T : Type} {h h1 : Heap T} {p q : pointer}
    (hd : h.delete p = some h1) (hpq : q ≠ p) : h1.read q = h.read q := by
  unfold Heap.delete at hd
  by_cases hp : p = nullptr
  · rw [if_pos hp] at hd
    rw [← Option.some.inj hd]
  · rw [if_neg hp] at hd
    cases hr : h.read p with
    | none => simp [hr] at hd
    | some v =>
      simp only [hr, Option.some.injEq] at hd
      subst hd
      exact lookup_filter_ne h.cells hpq

theorem delete_of_live {T : Type} {h : Heap T} {p : pointer} {v : T}
    (hr : h.read p = some v) : ∃ h1, h.delete p = some h1 := by
  unfold Heap.delete
  by_cases hp : p = nullptr
  · exact ⟨h, by rw [if_pos hp]⟩
  · exact ⟨_, by rw [if_neg hp, hr]⟩

theorem lookup_filter_self {T : Type} (cells : List (pointer × T)) (p : pointer) :
    (cells.filter fun c => c.1 != p).lookup p = none := by
  induction cells with
  | nil => rfl
  | cons c cs ih =>
    obtain ⟨k, b⟩ := c
    by_cases hk : k = p
    · subst hk
      simp [List.filter_cons, ih]
    · have hbeq : (p == k) = false := by simpa using fun e : p = k => hk e.symm
      simp [List.filter_cons, List.lookup_cons, hk, hbeq, ih]

theorem read_delete_self {T : Type} {h h1 : Heap T} {p : pointer}
    (hd : h.delete p = some h1) (hp : p ≠ nullptr) : h1.read p = none := by
  unfold Heap.delete at hd
  rw [if_neg hp] at hd
  cases hr : h.read p with
  | none => simp [hr] at hd
  | some v =>
    simp only [hr, Option.some.injEq] at hd
    subst hd
    exact lookup_filter_self h.cells p

/-! ## clone -/

theorem clone_of_nonempty {T : Type} {s : State T} {this : Nat} {w : impl_ptr T}
    (hw : s.impl this = some w) {f : copier_fn T} {q : pointer} {h1 : Heap T}
    (hne : w.get ≠ nullptr) (hc : w.get_copier = some f)
    (hf : f w.get s.heap = some (q, h1)) :
    impl_ptr.clone this s =
      some (impl_ptr.ctor q w.get_deleter w.get_copier,
        { s with heap := h1, trace := s.trace ++ [Event.duplicate f w.get] }) := by
  simp only [impl_ptr.get, unique_ptr.get, impl_ptr.get_copier] at hne hc hf
  simp [impl_ptr.clone, hw, unique_ptr.operator_bool, unique_ptr.get, hne, hc, hf,
    call_copier, impl_ptr.get_copier, impl_ptr.get_deleter, impl_ptr.get]

theorem clone_of_empty {T : Type} {s : State T} {this : Nat} {w : impl_ptr T}
    (hw : s.impl this = some w) (hnull : w.get = nullptr) :
    impl_ptr.clone this s =
      some (impl_ptr.ctor nullptr w.get_deleter w.get_copier, s) := by
  simp only [impl_ptr.get, unique_ptr.get] at hnull
  simp [impl_ptr.clone, hw, unique_ptr.operator_bool, unique_ptr.get, hnull,
    impl_ptr.get_copier, impl_ptr.get_deleter]

/-- C1: `clone()` of a non-empty wrapper `(p, d, c)` calls `c` exactly once, on
`p`, and returns the wrapper `(c(p), d, c)`; `clone()` of an empty wrapper
returns the empty wrapper `(nullptr, d, c)` and calls nothing. In both cases
the store of wrapper objects, `w` included, is left as it was. -/
theorem clone_spec {T : Type} (s : State T) (this : Nat) (w : impl_ptr T)
    (hw : s.impl this = some w) :
    (∀ (f : copier_fn T) (q : pointer) (h1 : Heap T),
        w.get ≠ nullptr → w.get_copier = some f → f w.get s.heap = some (q, h1) →
        impl_ptr.clone this s =
          some (impl_ptr.ctor q w.get_deleter w.get_copier,
            { s with heap := h1, trace := s.trace ++ [Event.duplicate f w.get] })) ∧
    (w.get = nullptr →
        impl_ptr.clone this s = some (impl_ptr.ctor nullptr w.get_deleter w.get_copier, s)) :=
  ⟨fun _ _ _ hne hc hf => clone_of_nonempty hw hne hc hf, fun hnull => clone_of_empty hw hnull⟩

/-- C1, at concrete inputs: object 0 of `st3` owns address 1, its clone owns the
new address 3 after one call of `default_copy` on 1; object 2 is empty, its
clone is empty and nothing is called. -/
theorem clone_spec_witness :
    impl_ptr.clone 0 st3 =
      some (impl_ptr.ctor 3 (some details.default_delete) (some details.default_copy),
        { st3 with heap := ⟨[(3, ⟨7⟩), (1, ⟨7⟩), (2, ⟨3⟩)]⟩,
                   trace := [Event.duplicate details.default_copy 1] }) ∧
    impl_ptr.clone 2 st3 = some (impl_ptr.ctor nullptr none none, st3) :=
  ⟨(clone_spec st3 0 (impl_ptr.ctor_raw 1) rfl).1 details.default_copy 3
      ⟨[(3, ⟨7⟩), (1, ⟨7⟩), (2, ⟨3⟩)]⟩ (by decide) rfl rfl,
   (clone_spec st3 2 impl_ptr.ctor_default rfl).2 rfl⟩

/-- C2, refuted as stated: object 0 of `st_custom` owns the live instance at
address 1 and duplicates through `same_address`; its clone owns address 1 too. -/
theorem clone_custom_copier_shares_address :
    (st_custom.impl 0).map impl_ptr.get = some 1 ∧
    st_custom.heap.read 1 = some ⟨7⟩ ∧
    (impl_ptr.clone 0 st_custom).map (fun r => r.1.get) = some 1 :=
  ⟨rfl, rfl, rfl⟩

/-- C2, amended: when the duplication strategy of `w` is `default_copy` and `w`
owns a live instance of value `v`, `clone()` returns a wrapper whose address
differs from the address of `w` and was not live before; the instance there
has the value `v`, and so has, still, the instance of `w`. -/
theorem clone_default_copy_independent {T : Type} (s : State T) (this : Nat)
    (w : impl_ptr T) (v : T) (hw : s.impl this = some w)
    (hc : w.get_copier = some details.default_copy)
    (hne : w.get ≠ nullptr) (hv : s.heap.read w.get = some v) :
    ∃ (w1 : impl_ptr T) (s1 : State T),
      impl_ptr.clone this s = some (w1, s1) ∧ w1.get ≠ w.get ∧ w1.get ≠ nullptr ∧
      s.heap.read w1.get = none ∧ s1.heap.read w1.get = some v ∧
      s1.heap.read w.get = some v ∧ s1.impl this = some w := by
  have hlt : w.get < s.heap.fresh := read_lt_fresh hv
  have hcall : details.default_copy w.get s.heap = some (s.heap.new v) := by
    simp [details.default_copy, hv]
  refine ⟨_, _, clone_of_nonempty hw hne hc hcall, ?_, ?_, ?_, ?_, ?_, ?_⟩
  · exact Nat.ne_of_gt hlt
  · simp [impl_ptr.ctor, impl_ptr.get, unique_ptr.get, Heap.new, Heap.fresh, nullptr]
  · exact read_fresh s.heap
  · exact read_new_self s.heap v
  · show (s.heap.new v).2.read w.get = some v
    rw [read_new_of_ne s.heap v (Nat.ne_of_lt hlt)]
    exact hv
  · exact hw

/-- C2 amended, at a concrete input: the clone of object 0 of `st3` (address 1,
`m_x = 7`) owns address 3, where `m_x = 7`. -/
theorem clone_default_copy_independent_witness :
    ∃ (w1 : impl_ptr Private) (s1 : State Private),
      impl_ptr.clone 0 st3 = some (w1, s1) ∧ w1.get ≠ 1 ∧ w1.get ≠ nullptr ∧
      st3.heap.read w1.get = none ∧ s1.heap.read w1.get = some ⟨7⟩ ∧
      s1.heap.read 1 = some ⟨7⟩ ∧ s1.impl 0 = some (impl_ptr.ctor_raw 1) :=
  clone_default_copy_independent st3 0 (impl_ptr.ctor_raw 1) ⟨7⟩ rfl rfl (by decide) rfl

/-! ## Move construction and move assignment -/

theorem release_member {T : Type} {s : State T} {r : Nat} {a : impl_ptr T}
    (ha : s.impl r = some a) :
    unique_ptr.release (.member r) s =
      some (a.get, s.set_impl r (impl_ptr.ctor nullptr a.get_deleter a.get_copier)) := by
  simp [unique_ptr.release, State.uniq, State.set_uniq, ha, impl_ptr.ctor, impl_ptr.get,
    unique_ptr.get, impl_ptr.get_deleter, unique_ptr.get_deleter, impl_ptr.get_copier]

theorem reset_member {T : Type} {s : State T} {i : Nat} {b : impl_ptr T}
    (hb : s.impl i = some b) (p : pointer) :
    unique_ptr.reset (.member i) p s =
      if b.get ≠ nullptr then
        call_deleter b.get_deleter b.get (s.set_impl i (impl_ptr.ctor p b.get_deleter b.get_copier))
      else some (s.set_impl i (impl_ptr.ctor p b.get_deleter b.get_copier)) := by
  simp [unique_ptr.reset, State.uniq, State.set_uniq, hb, impl_ptr.ctor, impl_ptr.get,
    unique_ptr.get, impl_ptr.get_deleter, unique_ptr.get_deleter, impl_ptr.get_copier]

theorem move_ctor_eq {T : Type} {s : State T} {r : Nat} {a : impl_ptr T}
    (ha : s.impl r = some a) :
    impl_ptr.move_ctor r s =
      some ((s.set_impl r (impl_ptr.ctor nullptr a.get_deleter a.get_copier)).new_impl a) := by
  have h1 := impl_set_impl_self ha (impl_ptr.ctor nullptr a.get_deleter a.get_copier)
  simp only [impl_ptr.move_ctor, unique_ptr.move_ctor, release_member ha, State.uniq, h1,
    Option.bind_eq_bind, Option.some_bind, Option.map_some', Option.pure_def]
  rfl

theorem uniq_member_eq {T : Type} {s : State T} {i : Nat} {w : impl_ptr T}
    (h : s.impl i = some w) : s.uniq (.member i) = some w.ptr_ := by
  simp [State.uniq, h]

theorem set_uniq_member_eq {T : Type} {s : State T} {i : Nat} {w : impl_ptr T}
    (h : s.impl i = some w) (u : unique_ptr T) :
    s.set_uniq (.member i) u = some (s.set_impl i ⟨u, w.copier_⟩) := by
  simp [State.set_uniq, h]

theorem set_impl_set_impl {T : Type} (s : State T) (i : Nat) (w w1 : impl_ptr T) :
    (s.set_impl i w).set_impl i w1 = s.set_impl i w1 := by
  simp [State.set_impl, List.set_set]

theorem move_assign_of_reset {T : Type} {s s2 : State T} {this r : Nat} {a x y : impl_ptr T}
    (ha : s.impl r = some a)
    (hreset : unique_ptr.reset (.member this) a.get
      (s.set_impl r (impl_ptr.ctor nullptr a.get_deleter a.get_copier)) = some s2)
    (hr2 : s2.impl r = some x) (ht2 : s2.impl this = some y) :
    impl_ptr.move_assign this r s =
      some (s2.set_impl this ⟨⟨y.ptr_.ptr, x.ptr_.deleter⟩, x.copier_⟩) := by
  have h3t := impl_set_impl_self ht2 ⟨⟨y.ptr_.ptr, x.ptr_.deleter⟩, y.copier_⟩
  have h3r : ∃ z : impl_ptr T,
      (s2.set_impl this ⟨⟨y.ptr_.ptr, x.ptr_.deleter⟩, y.copier_⟩).impl r = some z ∧
      z.copier_ = x.copier_ := by
    by_cases hne : this = r
    · subst hne
      have hxy : x = y := Option.some.inj (hr2.symm.trans ht2)
      exact ⟨_, h3t, by rw [hxy]⟩
    · exact ⟨x, by rw [impl_set_impl_ne s2 hne]; exact hr2, rfl⟩
  obtain ⟨z, hz, hzc⟩ := h3r
  simp only [impl_ptr.move_assign, unique_ptr.move_assign, release_member ha,
    Option.bind_eq_bind, Option.some_bind, hreset, uniq_member_eq hr2, uniq_member_eq ht2,
    set_uniq_member_eq ht2, hz, h3t, Option.pure_def, set_impl_set_impl, hzc]

theorem call_deleter_some {T : Type} {f : deleter_fn T} {p : pointer} {s : State T}
    {h1 : Heap T} (hf : f p s.heap = some h1) :
    call_deleter (some f) p s =
      some { s with heap := h1, trace := s.trace ++ [Event.release f p] } := by
  simp [call_deleter, hf]

/-- Move assignment to a distinct empty target: nothing is called. -/
theorem move_assign_to_empty {T : Type} {s : State T} {this r : Nat} {a b : impl_ptr T}
    (ha : s.impl r = some a) (hb : s.impl this = some b) (hne : this ≠ r)
    (hnull : b.get = nullptr) :
    ∃ s1, impl_ptr.move_assign this r s = some s1 ∧ s1.impl this = some a ∧
      s1.impl r = some (impl_ptr.ctor nullptr a.get_deleter a.get_copier) ∧
      s1.heap = s.heap ∧ s1.trace = s.trace := by
  have hne1 : r ≠ this := fun h => hne h.symm
  have hb1 : (s.set_impl r (impl_ptr.ctor nullptr a.get_deleter a.get_copier)).impl this =
      some b := by rw [impl_set_impl_ne s hne1]; exact hb
  have hreset := reset_member hb1 a.get
  rw [if_neg (not_not.mpr hnull)] at hreset
  have ht2 := impl_set_impl_self hb1 (impl_ptr.ctor a.get b.get_deleter b.get_copier)
  have hr2 : ((s.set_impl r (impl_ptr.ctor nullptr a.get_deleter a.get_copier)).set_impl this
      (impl_ptr.ctor a.get b.get_deleter b.get_copier)).impl r =
      some (impl_ptr.ctor nullptr a.get_deleter a.get_copier) := by
    rw [impl_set_impl_ne _ hne]
    exact impl_set_impl_self ha _
  refine ⟨_, move_assign_of_reset ha hreset hr2 ht2, ?_, ?_, rfl, rfl⟩
  · exact impl_set_impl_self ht2 _
  · rw [impl_set_impl_ne _ hne]
    exact hr2

/-- Move assignment to a distinct non-empty target: the old instance of the
target is released through the old release strategy of the target. -/
theorem move_assign_to_nonempty {T : Type} {s : State T} {this r : Nat} {a b : impl_ptr T}
    (ha : s.impl r = some a) (hb : s.impl this = some b) (hne : this ≠ r)
    (hnn : b.get ≠ nullptr) {f : deleter_fn T} {h1 : Heap T}
    (hd : b.get_deleter = some f) (hf : f b.get s.heap = some h1) :
    ∃ s1, impl_ptr.move_assign this r s = some s1 ∧ s1.impl this = some a ∧
      s1.impl r = some (impl_ptr.ctor nullptr a.get_deleter a.get_copier) ∧
      s1.heap = h1 ∧ s1.trace = s.trace ++ [Event.release f b.get] := by
  have hne1 : r ≠ this := fun h => hne h.symm
  have hb1 : (s.set_impl r (impl_ptr.ctor nullptr a.get_deleter a.get_copier)).impl this =
      some b := by rw [impl_set_impl_ne s hne1]; exact hb
  have hreset := reset_member hb1 a.get
  rw [if_pos hnn, hd] at hreset
  have hf1 : f b.get (((s.set_impl r (impl_ptr.ctor nullptr a.get_deleter a.get_copier)).set_impl
      this (impl_ptr.ctor a.get (some f) b.get_copier)).heap) = some h1 := hf
  rw [call_deleter_some hf1] at hreset
  have ht2 := impl_set_impl_self hb1 (impl_ptr.ctor a.get (some f) b.get_copier)
  have hr2 : ((s.set_impl r (impl_ptr.ctor nullptr a.get_deleter a.get_copier)).set_impl this
      (impl_ptr.ctor a.get (some f) b.get_copier)).impl r =
      some (impl_ptr.ctor nullptr a.get_deleter a.get_copier) := by
    rw [impl_set_impl_ne _ hne]
    exact impl_set_impl_self ha _
  refine ⟨_, move_assign_of_reset ha hreset hr2 ht2, ?_, ?_, rfl, rfl⟩
  · exact impl_set_impl_self ht2 _
  · exact (impl_set_impl_ne _ hne _).trans hr2

/-- Move assignment of a wrapper to itself: the wrapper keeps what it has. -/
theorem move_assign_self {T : Type} {s : State T} {r : Nat} {a : impl_ptr T}
    (ha : s.impl r = some a) :
    ∃ s1, impl_ptr.move_assign r r s = some s1 ∧ s1.impl r = some a ∧
      s1.heap = s.heap ∧ s1.trace = s.trace := by
  have hb1 := impl_set_impl_self ha (impl_ptr.ctor nullptr a.get_deleter a.get_copier)
  have hreset := reset_member hb1 a.get
  have hz : ¬ ((impl_ptr.ctor nullptr a.get_deleter a.get_copier).get ≠ nullptr) :=
    not_not.mpr rfl
  rw [if_neg hz] at hreset
  have ht2 := impl_set_impl_self hb1
    (impl_ptr.ctor a.get (impl_ptr.ctor nullptr a.get_deleter a.get_copier).get_deleter
      (impl_ptr.ctor nullptr a.get_deleter a.get_copier).get_copier)
  refine ⟨_, move_assign_of_reset ha hreset ht2 ht2, ?_, rfl, rfl⟩
  exact impl_set_impl_self ht2 _

/-- Move construction from `r`: the new object is what `r` was, `r` keeps its
strategies over the null address, and nothing is called. -/
theorem move_ctor_obs {T : Type} {s : State T} {r : Nat} {a : impl_ptr T}
    (ha : s.impl r = some a) :
    ∃ n s1, impl_ptr.move_ctor r s = some (n, s1) ∧ s1.impl n = some a ∧
      s1.impl r = some (impl_ptr.ctor nullptr a.get_deleter a.get_copier) ∧
      s1.heap = s.heap ∧ s1.trace = s.trace :=
  ⟨_, _, move_ctor_eq ha, impl_new_impl_new _ a,
    impl_new_impl_old (impl_set_impl_self ha _) a, rfl, rfl⟩

/-- Move assignment to a distinct target whose old instance, if any, can be released. -/
theorem move_assign_obs {T : Type} {s : State T} {this r : Nat} {a b : impl_ptr T}
    {f : deleter_fn T} {h1 : Heap T}
    (ha : s.impl r = some a) (hb : s.impl this = some b) (hne : this ≠ r)
    (hd : b.get ≠ nullptr → b.get_deleter = some f ∧ f b.get s.heap = some h1) :
    ∃ s1, impl_ptr.move_assign this r s = some s1 ∧ s1.impl this = some a ∧
      s1.impl r = some (impl_ptr.ctor nullptr a.get_deleter a.get_copier) ∧
      s1.heap = (if b.get = nullptr then s.heap else h1) ∧
      s1.trace = s.trace ++ (if b.get = nullptr then [] else [Event.release f b.get]) := by
  by_cases hnull : b.get = nullptr
  · obtain ⟨s1, h, ht, hr, hh, htr⟩ := move_assign_to_empty ha hb hne hnull
    exact ⟨s1, h, ht, hr, by simp [hnull, hh], by simp [hnull, htr]⟩
  · obtain ⟨s1, h, ht, hr, hh, htr⟩ :=
      move_assign_to_nonempty ha hb hne hnull (hd hnull).1 (hd hnull).2
    exact ⟨s1, h, ht, hr, by simp [hnull, hh], by simp [hnull, htr]⟩

/-- C3, refuted as stated: object 0 of `st3` owns address 1; after the move
assignment of object 0 to itself it still owns address 1 and converts to true. -/
theorem move_assign_self_not_empty :
    (st3.impl 0).map impl_ptr.get = some 1 ∧
    (impl_ptr.move_assign 0 0 st3).bind (fun s1 => (s1.impl 0).map impl_ptr.get) = some 1 ∧
    (impl_ptr.move_assign 0 0 st3).bind
      (fun s1 => (s1.impl 0).map impl_ptr.operator_bool) = some true :=
  ⟨rfl, rfl, rfl⟩

/-- C3, amended: for distinct wrappers `A` (object `r`) and `B` (object `this`,
whose old instance, if it has one, can be released), after move construction of
`B` from `A`, after `B = move(A)` and after the converting move assignment, `B`
is what `A` was before (same address, same release and duplication strategy)
and `A` is empty: `A.get()` is null and `A` converts to false. A move
assignment of `A` to itself leaves `A` as it was. -/
theorem move_transfers_ownership {T : Type} (s : State T) (this r : Nat)
    (a b : impl_ptr T) (f : deleter_fn T) (h1 : Heap T)
    (ha : s.impl r = some a) (hb : s.impl this = some b) (hne : this ≠ r)
    (hd : b.get ≠ nullptr → b.get_deleter = some f ∧ f b.get s.heap = some h1) :
    (∃ n s1 a1, impl_ptr.move_ctor r s = some (n, s1) ∧ n ≠ r ∧ s1.impl n = some a ∧
      s1.impl r = some a1 ∧ a1.get = nullptr ∧ a1.operator_bool = false) ∧
    (∃ s1 a1, impl_ptr.move_assign this r s = some s1 ∧ s1.impl this = some a ∧
      s1.impl r = some a1 ∧ a1.get = nullptr ∧ a1.operator_bool = false) ∧
    (∃ s1 a1, impl_ptr.move_assign_conv this r s = some s1 ∧ s1.impl this = some a ∧
      s1.impl r = some a1 ∧ a1.get = nullptr ∧ a1.operator_bool = false) ∧
    (∃ s1, impl_ptr.move_assign r r s = some s1 ∧ s1.impl r = some a) := by
  obtain ⟨n, s1, hc, hn, hr, _, _⟩ := move_ctor_obs ha
  obtain ⟨s2, hm, ht2, hr2, _, _⟩ := move_assign_obs ha hb hne hd
  obtain ⟨s3, hs, hr3, _, _⟩ := move_assign_self ha
  have hnr : n ≠ r := by
    have h := congrArg (fun x => x.map Prod.fst) (hc.symm.trans (move_ctor_eq ha))
    simp only [Option.map_some', State.new_impl, State.set_impl, List.length_set,
      Option.some.injEq] at h
    rw [h]
    exact Nat.ne_of_gt (impl_lt_length ha)
  exact ⟨⟨n, s1, _, hc, hnr, hn, hr, rfl, rfl⟩, ⟨s2, _, hm, ht2, hr2, rfl, rfl⟩,
    ⟨s2, _, hm, ht2, hr2, rfl, rfl⟩, ⟨s3, hs, hr3⟩⟩

/-- C3 amended, at a concrete input: in `st3`, object 1 (address 2) is
move-assigned from object 0 (address 1), and a new object is move-constructed
from object 0. -/
theorem move_transfers_ownership_witness :
    (∃ n s1 a1, impl_ptr.move_ctor 0 st3 = some (n, s1) ∧ n ≠ 0 ∧
      s1.impl n = some (impl_ptr.ctor_raw 1) ∧
      s1.impl 0 = some a1 ∧ a1.get = nullptr ∧ a1.operator_bool = false) ∧
    (∃ s1 a1, impl_ptr.move_assign 1 0 st3 = some s1 ∧
      s1.impl 1 = some (impl_ptr.ctor_raw 1) ∧
      s1.impl 0 = some a1 ∧ a1.get = nullptr ∧ a1.operator_bool = false) ∧
    (∃ s1 a1, impl_ptr.move_assign_conv 1 0 st3 = some s1 ∧
      s1.impl 1 = some (impl_ptr.ctor_raw 1) ∧
      s1.impl 0 = some a1 ∧ a1.get = nullptr ∧ a1.operator_bool = false) ∧
    (∃ s1, impl_ptr.move_assign 0 0 st3 = some s1 ∧ s1.impl 0 = some (impl_ptr.ctor_raw 1)) :=
  move_transfers_ownership st3 1 0 (impl_ptr.ctor_raw 1) (impl_ptr.ctor_raw 2)
    details.default_delete ⟨[(1, ⟨7⟩)]⟩ rfl rfl (by decide) (fun _ => ⟨rfl, rfl⟩)

/-- C4, refuted as stated: in `st3` object 1 owns address 2; the move
assignment of object 1 from object 0 calls the release strategy of object 1,
`default_delete`, on address 2, and the instance there is gone. -/
theorem move_assign_releases_old_instance :
    st3.trace = [] ∧
    (impl_ptr.move_assign 1 0 st3).map (fun s1 => s1.trace) =
      some [Event.release details.default_delete 2] ∧
    (impl_ptr.move_assign 1 0 st3).map (fun s1 => s1.heap.read 2) = some none :=
  ⟨rfl, rfl, rfl⟩

/-- C4, amended: move construction calls no strategy. A move assignment
`B = move(A)` to a distinct `B` calls no strategy when `B` is empty; when `B`
is non-empty it makes exactly one call, of the old release strategy of `B` on
the old address of `B`. With `default_delete` as that strategy, the instance
`B` takes over from `A` keeps its value when `A` and `B` owned different
addresses, and is the released one when they owned the same address. A move
assignment of `A` to itself calls no strategy. -/
theorem move_release_trace {T : Type} (s : State T) (this r : Nat)
    (a b : impl_ptr T) (f : deleter_fn T) (h1 : Heap T)
    (ha : s.impl r = some a) (hb : s.impl this = some b) (hne : this ≠ r)
    (hd : b.get ≠ nullptr → b.get_deleter = some f ∧ f b.get s.heap = some h1) :
    (∃ n s1, impl_ptr.move_ctor r s = some (n, s1) ∧ s1.trace = s.trace ∧
      s1.heap = s.heap) ∧
    (∃ s1, impl_ptr.move_assign this r s = some s1 ∧
      s1.trace = s.trace ++ (if b.get = nullptr then [] else [Event.release f b.get]) ∧
      s1.heap = (if b.get = nullptr then s.heap else h1) ∧
      s1.impl this = some a ∧
      (f = details.default_delete → a.get ≠ b.get →
        s1.heap.read a.get = s.heap.read a.get) ∧
      (f = details.default_delete → b.get ≠ nullptr → a.get = b.get →
        s1.heap.read a.get = none)) ∧
    (∃ s1, impl_ptr.move_assign_conv this r s = some s1 ∧
      s1.trace = s.trace ++ (if b.get = nullptr then [] else [Event.release f b.get]) ∧
      s1.heap = (if b.get = nullptr then s.heap else h1) ∧
      s1.impl this = some a ∧
      (f = details.default_delete → a.get ≠ b.get →
        s1.heap.read a.get = s.heap.read a.get) ∧
      (f = details.default_delete → b.get ≠ nullptr → a.get = b.get →
        s1.heap.read a.get = none)) ∧
    (∃ s1, impl_ptr.move_assign r r s = some s1 ∧ s1.trace = s.trace ∧
      s1.heap = s.heap) := by
  obtain ⟨n, s1, hc, _, _, hh1, ht1⟩ := move_ctor_obs ha
  obtain ⟨s2, hm, hthis, _, hh2, ht2⟩ := move_assign_obs ha hb hne hd
  obtain ⟨s3, hs, _, hh3, ht3⟩ := move_assign_self ha
  have hkeep : f = details.default_delete → a.get ≠ b.get →
      s2.heap.read a.get = s.heap.read a.get := by
    intro hf hab
    rw [hh2]
    by_cases hbn : b.get = nullptr
    · rw [if_pos hbn]
    · rw [if_neg hbn]
      have hdel := (hd hbn).2
      rw [hf] at hdel
      exact read_delete_of_ne hdel hab
  have hgone : f = details.default_delete → b.get ≠ nullptr → a.get = b.get →
      s2.heap.read a.get = none := by
    intro hf hbn hab
    rw [hh2, if_neg hbn, hab]
    have hdel := (hd hbn).2
    rw [hf] at hdel
    exact read_delete_self hdel hbn
  exact ⟨⟨n, s1, hc, ht1, hh1⟩, ⟨s2, hm, ht2, hh2, hthis, hkeep, hgone⟩,
    ⟨s2, hm, ht2, hh2, hthis, hkeep, hgone⟩, ⟨s3, hs, ht3, hh3⟩⟩

/-- C4 amended, at concrete inputs: in `st3`, a move assignment to the empty
object 2 calls nothing; a move assignment to object 1 (address 2) from object
0 (address 1) releases address 2 and the instance at address 1 keeps `m_x = 7`;
move construction calls nothing. In `st_shared`, where objects 0 and 1 both
own address 1, the move assignment of object 0 from object 1 releases address
1, which object 0 owns afterwards. -/
theorem move_release_trace_witness :
    (∃ s1, impl_ptr.move_assign 2 0 st3 = some s1 ∧ s1.trace = [] ∧
      s1.heap = st3.heap) ∧
    (∃ s1, impl_ptr.move_assign 1 0 st3 = some s1 ∧
      s1.trace = [Event.release details.default_delete 2] ∧
      s1.heap = ⟨[(1, ⟨7⟩)]⟩ ∧ s1.impl 1 = some (impl_ptr.ctor_raw 1) ∧
      s1.heap.read 1 = some ⟨7⟩) ∧
    (∃ n s1, impl_ptr.move_ctor 0 st3 = some (n, s1) ∧ s1.trace = [] ∧
      s1.heap = st3.heap) ∧
    (∃ s1, impl_ptr.move_assign 0 1 st_shared = some s1 ∧
      s1.trace = [Event.release details.default_delete 1] ∧
      s1.impl 0 = some (impl_ptr.ctor_raw 1) ∧ s1.heap.read 1 = none) := by
  obtain ⟨s1, h1, ht1, hh1, _⟩ := (move_release_trace st3 2 0 (impl_ptr.ctor_raw 1)
    impl_ptr.ctor_default details.default_delete st3.heap rfl rfl (by decide)
    (fun h => absurd rfl h)).2.1
  obtain ⟨s2, h2, ht2, hh2, hi2, hk2, _⟩ := (move_release_trace st3 1 0
    (impl_ptr.ctor_raw 1) (impl_ptr.ctor_raw 2) details.default_delete ⟨[(1, ⟨7⟩)]⟩ rfl rfl
    (by decide) (fun _ => ⟨rfl, rfl⟩)).2.1
  obtain ⟨s4, h4, ht4, _, hi4, _, hg4⟩ := (move_release_trace st_shared 0 1
    (impl_ptr.ctor_raw 1) (impl_ptr.ctor_raw 1) details.default_delete ⟨[]⟩ rfl rfl
    (by decide) (fun _ => ⟨rfl, rfl⟩)).2.1
  exact ⟨⟨s1, h1, ht1, hh1⟩, ⟨s2, h2, ht2, hh2, hi2, hk2 rfl (by decide)⟩,
    (move_release_trace st3 1 0 (impl_ptr.ctor_raw 1) (impl_ptr.ctor_raw 2)
      details.default_delete ⟨[(1, ⟨7⟩)]⟩ rfl rfl (by decide) (fun _ => ⟨rfl, rfl⟩)).1,
    ⟨s4, h4, ht4, hi4, hg4 rfl (by decide) rfl⟩⟩

/-! ## Copy construction and copy assignment -/

theorem impl_congr {T : Type} {s s1 : State T} (h : s1.impls = s.impls) (j : Nat) :
    s1.impl j = s.impl j := by
  simp [State.impl, h]

theorem impl_kill_ne {T : Type} (s : State T) {t j : Nat} (h : t ≠ j) :
    ({ s with impls := s.impls.set t none } : State T).impl j = s.impl j := by
  simp [State.impl, List.getElem?_set_ne h]

theorem impl_kill_self {T : Type} (s : State T) (t : Nat) :
    ({ s with impls := s.impls.set t none } : State T).impl t = none := by
  by_cases h : t < s.impls.length
  · simp [State.impl, List.getElem?_set_self h]
  · have hle := Nat.le_of_not_lt h
    simp [State.impl, List.set_eq_of_length_le hle, List.getElem?_eq_none hle]

theorem destructor_of_empty {T : Type} {s : State T} {t : Nat} {w : impl_ptr T}
    (hw : s.impl t = some w) (hnull : w.get = nullptr) :
    impl_ptr.destructor t s = some { s with impls := s.impls.set t none } := by
  simp only [impl_ptr.get, unique_ptr.get] at hnull
  simp [impl_ptr.destructor, unique_ptr.destructor, hw, hnull]

/-- Copy construction from `r`, given what `r.clone()` returns: the new object
holds the clone, every object that was alive is as it was, and nothing is
called beyond what `clone()` called. -/
theorem copy_ctor_of_clone {T : Type} {s s1 : State T} {r : Nat} {w1 : impl_ptr T}
    (hcl : impl_ptr.clone r s = some (w1, s1)) (hsame : s1.impls = s.impls) :
    ∃ n s2, impl_ptr.copy_ctor r s = some (n, s2) ∧ s2.impl n = some w1 ∧
      (∀ j x, s.impl j = some x → n ≠ j ∧ s2.impl j = some x) ∧
      s2.heap = s1.heap ∧ s2.trace = s1.trace ∧ s2.uniqs = s1.uniqs := by
  have ht : (s1.new_impl w1).2.impl s1.impls.length = some w1 := impl_new_impl_new s1 w1
  have hmv := move_ctor_eq ht
  have hE_t : (((s1.new_impl w1).2.set_impl s1.impls.length
      (impl_ptr.ctor nullptr w1.get_deleter w1.get_copier)).new_impl w1).2.impl
      s1.impls.length = some (impl_ptr.ctor nullptr w1.get_deleter w1.get_copier) :=
    impl_new_impl_old (impl_set_impl_self ht _) w1
  have hds := destructor_of_empty hE_t rfl
  have hlen : ((s1.new_impl w1).2.set_impl s1.impls.length
      (impl_ptr.ctor nullptr w1.get_deleter w1.get_copier)).impls.length =
      s1.impls.length + 1 := by
    simp [State.new_impl, State.set_impl]
  have hn : (((s1.new_impl w1).2.set_impl s1.impls.length
      (impl_ptr.ctor nullptr w1.get_deleter w1.get_copier)).new_impl w1).1 =
      s1.impls.length + 1 := hlen
  have hnt : s1.impls.length ≠ (((s1.new_impl w1).2.set_impl s1.impls.length
      (impl_ptr.ctor nullptr w1.get_deleter w1.get_copier)).new_impl w1).1 := by
    rw [hn]
    exact Nat.ne_of_lt (Nat.lt_succ_self _)
  have hcc : impl_ptr.copy_ctor r s = some
      ((((s1.new_impl w1).2.set_impl s1.impls.length
          (impl_ptr.ctor nullptr w1.get_deleter w1.get_copier)).new_impl w1).1,
        { (((s1.new_impl w1).2.set_impl s1.impls.length
          (impl_ptr.ctor nullptr w1.get_deleter w1.get_copier)).new_impl w1).2 with
          impls := (((s1.new_impl w1).2.set_impl s1.impls.length
            (impl_ptr.ctor nullptr w1.get_deleter w1.get_copier)).new_impl w1).2.impls.set
              s1.impls.length none }) := by
    simp only [impl_ptr.copy_ctor, hcl, Option.bind_eq_bind, Option.some_bind]
    show (impl_ptr.move_ctor s1.impls.length (s1.new_impl w1).2).bind _ = _
    rw [hmv]
    simp only [Option.some_bind]
    show (impl_ptr.destructor s1.impls.length _).bind _ = _
    rw [hds]
    rfl
  refine ⟨_, _, hcc, ?_, ?_, rfl, rfl, rfl⟩
  · rw [impl_kill_ne _ hnt]
    exact impl_new_impl_new _ w1
  · intro j x hj
    have hj1 : s1.impl j = some x := (impl_congr hsame j).trans hj
    have hjlt : j < s1.impls.length := impl_lt_length hj1
    have hne : s1.impls.length ≠ j := Nat.ne_of_gt hjlt
    refine ⟨?_, ?_⟩
    · rw [hn]
      omega
    · rw [impl_kill_ne _ hne]
      apply impl_new_impl_old
      rw [impl_set_impl_ne _ hne]
      exact impl_new_impl_old hj1 w1

/-- C5: copy-assigning a wrapper object to itself returns at once: the whole
state is as before, so the wrapper keeps its address and both strategies, the
owned instance keeps its value, and the trace of strategy calls is unchanged. -/
theorem copy_assign_self_noop {T : Type} (s : State T) (this : Nat) (w : impl_ptr T)
    (hw : s.impl this = some w) :
    ∃ s1, impl_ptr.copy_assign this this s = some s1 ∧ s1 = s ∧ s1.impl this = some w ∧
      s1.heap.read w.get = s.heap.read w.get ∧ s1.trace = s.trace := by
  refine ⟨s, ?_, rfl, hw, rfl, rfl⟩
  simp [impl_ptr.copy_assign, hw]

/-- C5, at concrete inputs: the non-empty object 0 and the empty object 2 of `st3`. -/
theorem copy_assign_self_noop_witness :
    (∃ s1, impl_ptr.copy_assign 0 0 st3 = some s1 ∧ s1 = st3 ∧
      s1.impl 0 = some (impl_ptr.ctor_raw 1) ∧
      s1.heap.read 1 = st3.heap.read 1 ∧ s1.trace = st3.trace) ∧
    (∃ s1, impl_ptr.copy_assign 2 2 st3 = some s1 ∧ s1 = st3 ∧
      s1.impl 2 = some impl_ptr.ctor_default ∧
      s1.heap.read 0 = st3.heap.read 0 ∧ s1.trace = st3.trace) :=
  ⟨copy_assign_self_noop st3 0 (impl_ptr.ctor_raw 1) rfl,
   copy_assign_self_noop st3 2 impl_ptr.ctor_default rfl⟩

/-- C6: from any state, for all field values `a` and `b`: after
`W1 = make_impl(a, j)`, `W2 = W1` and `W2->m_x = b`, the wrapper `W1` still owns
the address the factory gave it, that address differs from the one `W2` owns,
the field of the instance of `W1` is `a` and the field of the instance of `W2` is `b`. -/
theorem copy_then_mutate_independent (a b j : Int) (s : State Private) :
    ∃ w1 w2 s1 x1 x2, copy_then_mutate a b j s = some (w1, w2, s1) ∧ w1 ≠ w2 ∧
      s1.impl w1 = some x1 ∧ s1.impl w2 = some x2 ∧
      x1 = (make_impl Private.ctor (a, j) s).1 ∧ x1.get ≠ x2.get ∧
      (s1.heap.read x1.get).map Private.m_x = some a ∧
      (s1.heap.read x2.get).map Private.m_x = some b := by
  have hA : (s.heap.new (Private.ctor (a, j))).2.read s.heap.fresh = some ⟨a⟩ :=
    read_new_self s.heap _
  have hw1 : ((make_impl Private.ctor (a, j) s).2.new_impl
      (make_impl Private.ctor (a, j) s).1).2.impl
      ((make_impl Private.ctor (a, j) s).2.new_impl (make_impl Private.ctor (a, j) s).1).1 =
      some (make_impl Private.ctor (a, j) s).1 := impl_new_impl_new _ _
  have hcall : details.default_copy (make_impl Private.ctor (a, j) s).1.get
      ((make_impl Private.ctor (a, j) s).2.new_impl
        (make_impl Private.ctor (a, j) s).1).2.heap =
      some ((s.heap.new (Private.ctor (a, j))).2.new ⟨a⟩) := by
    show details.default_copy s.heap.fresh (s.heap.new (Private.ctor (a, j))).2 = _
    simp [details.default_copy, hA]
  have hne0 : (make_impl Private.ctor (a, j) s).1.get ≠ nullptr := by
    show s.heap.fresh ≠ 0
    simp [Heap.fresh]
  have hcl := clone_of_nonempty hw1 hne0 rfl hcall
  obtain ⟨n, s2, hcc, hn, hframe, hheap, _, _⟩ := copy_ctor_of_clone hcl rfl
  obtain ⟨hne, hold⟩ := hframe _ _ hw1
  have hlt : s.heap.fresh < (s.heap.new (Private.ctor (a, j))).2.fresh := read_lt_fresh hA
  have hB : ((s.heap.new (Private.ctor (a, j))).2.new ⟨a⟩).2.read
      (s.heap.new (Private.ctor (a, j))).2.fresh = some ⟨a⟩ := read_new_self _ _
  have hheap2 : s2.heap = ((s.heap.new (Private.ctor (a, j))).2.new ⟨a⟩).2 := hheap
  have hwr : ∃ h3, (((s.heap.new (Private.ctor (a, j))).2.new ⟨a⟩).2).write
      (s.heap.new (Private.ctor (a, j))).2.fresh ⟨b⟩ = some h3 := by
    simp [Heap.write, hB]
  obtain ⟨h3, hh3⟩ := hwr
  have hset : set_m_x (s.heap.new (Private.ctor (a, j))).2.fresh b s2.heap = some h3 := by
    rw [hheap2]
    simp only [set_m_x, hB]
    exact hh3
  refine ⟨_, n, { s2 with heap := h3 }, _, _, ?_, fun h => hne h.symm, hold, hn, rfl,
    Nat.ne_of_lt hlt, ?_, ?_⟩
  · simp only [copy_then_mutate, hcc, Option.bind_eq_bind, Option.some_bind, hn]
    show (set_m_x (s.heap.new (Private.ctor (a, j))).2.fresh b s2.heap).bind _ = _
    rw [hset]
    rfl
  · show (h3.read s.heap.fresh).map Private.m_x = some a
    rw [read_write_of_ne hh3 (Nat.ne_of_lt hlt), read_new_of_ne _ _ (Nat.ne_of_lt hlt), hA]
    rfl
  · show (h3.read (s.heap.new (Private.ctor (a, j))).2.fresh).map Private.m_x = some b
    rw [read_write_self hh3]
    rfl

/-- C6, at the values of the spec: `a = 7`, `b = 8`, from the initial state; `W1`
is object 0 at address 1 and `W2` is object 2 at address 2. -/
theorem copy_then_mutate_independent_witness :
    (∃ w1 w2 s1 x1 x2, copy_then_mutate 7 8 6 State.init = some (w1, w2, s1) ∧ w1 ≠ w2 ∧
      s1.impl w1 = some x1 ∧ s1.impl w2 = some x2 ∧
      x1 = (make_impl Private.ctor (7, 6) State.init).1 ∧ x1.get ≠ x2.get ∧
      (s1.heap.read x1.get).map Private.m_x = some 7 ∧
      (s1.heap.read x2.get).map Private.m_x = some 8) ∧
    (∃ s1, copy_then_mutate 7 8 6 State.init = some (0, 2, s1) ∧
      (s1.impl 0).map impl_ptr.get = some 1 ∧ (s1.impl 2).map impl_ptr.get = some 2 ∧
      s1.heap.read 1 = some ⟨7⟩ ∧ s1.heap.read 2 = some ⟨8⟩) :=
  ⟨copy_then_mutate_independent 7 8 6 State.init, ⟨_, rfl, rfl, rfl, rfl, rfl⟩⟩

/-! ## release and swap -/

/-- C7: `release()` on a wrapper `w = (p, d, c)` returns `p`, leaves the wrapper
empty and the trace and the heap as they were; the wrapper built from the
returned address and the strategies `d` and `c` is `w` again, component for
component, and compares equal to it under `==`. -/
theorem release_roundtrip {T : Type} (s : State T) (this : Nat) (w : impl_ptr T)
    (hw : s.impl this = some w) :
    ∃ p s1 w1, impl_ptr.release this s = some (p, s1) ∧ p = w.get ∧
      s1.impl this = some w1 ∧ w1.get = nullptr ∧ w1.operator_bool = false ∧
      s1.trace = s.trace ∧ s1.heap = s.heap ∧
      impl_ptr.ctor p w.get_deleter w.get_copier = w ∧
      operator_eq ptr_conv.same ptr_conv.same (impl_ptr.ctor p w.get_deleter w.get_copier)
        w = true := by
  refine ⟨_, _, _, release_member hw, rfl, impl_set_impl_self hw _, rfl, rfl, rfl, rfl, rfl, ?_⟩
  simp [operator_eq, impl_ptr.ctor, impl_ptr.get, unique_ptr.get]

/-- C7, at a concrete input: object 1 of `st3` releases address 2. -/
theorem release_roundtrip_witness :
    ∃ p s1 w1, impl_ptr.release 1 st3 = some (p, s1) ∧ p = 2 ∧
      s1.impl 1 = some w1 ∧ w1.get = nullptr ∧ w1.operator_bool = false ∧
      s1.trace = st3.trace ∧ s1.heap = st3.heap ∧
      impl_ptr.ctor p (some details.default_delete) (some details.default_copy) =
        (impl_ptr.ctor_raw 2 : impl_ptr Private) ∧
      operator_eq ptr_conv.same ptr_conv.same (impl_ptr.ctor p (some details.default_delete)
        (some (details.default_copy : copier_fn Private))) (impl_ptr.ctor_raw 2 : impl_ptr Private)
        = true :=
  release_roundtrip st3 1 (impl_ptr.ctor_raw 2) rfl

theorem swap_obs {T : Type} {s : State T} {a b : Nat} {w1 w2 : impl_ptr T}
    (h1 : s.impl a = some w1) (h2 : s.impl b = some w2) :
    ∃ s1, impl_ptr.swap a b s = some s1 ∧ s1.impl a = some w2 ∧ s1.impl b = some w1 ∧
      s1.trace = s.trace ∧ s1.heap = s.heap ∧ s1.uniqs = s.uniqs ∧
      ∀ j, j ≠ a → j ≠ b → s1.impl j = s.impl j := by
  by_cases hab : a = b
  · subst hab
    have hww : w1 = w2 := Option.some.inj (h1.symm.trans h2)
    subst hww
    have e1 := impl_set_impl_self h1 ⟨w1.ptr_, w1.copier_⟩
    have e2 := impl_set_impl_self e1 ⟨w1.ptr_, w1.copier_⟩
    have e3 := impl_set_impl_self e2 ⟨w1.ptr_, w1.copier_⟩
    have hsw : impl_ptr.swap a a s = some (s.set_impl a ⟨w1.ptr_, w1.copier_⟩) := by
      simp only [impl_ptr.swap, unique_ptr.swap, uniq_member_eq h1, set_uniq_member_eq h1,
        Option.bind_eq_bind, Option.some_bind, set_uniq_member_eq e1, e1, e2, e3,
        set_impl_set_impl, Option.pure_def]
    refine ⟨_, hsw, e1, e1, rfl, rfl, rfl, ?_⟩
    intro j hj _
    exact impl_set_impl_ne s (fun h => hj h.symm) _
  · have hba : b ≠ a := fun h => hab h.symm
    have e1 : (s.set_impl a ⟨w2.ptr_, w1.copier_⟩).impl b = some w2 :=
      (impl_set_impl_ne s hab _).trans h2
    have e1a := impl_set_impl_self h1 ⟨w2.ptr_, w1.copier_⟩
    have e2a : ((s.set_impl a ⟨w2.ptr_, w1.copier_⟩).set_impl b ⟨w1.ptr_, w2.copier_⟩).impl a =
        some ⟨w2.ptr_, w1.copier_⟩ := (impl_set_impl_ne _ hba _).trans e1a
    have e2b := impl_set_impl_self e1 ⟨w1.ptr_, w2.copier_⟩
    have e3b : (((s.set_impl a ⟨w2.ptr_, w1.copier_⟩).set_impl b ⟨w1.ptr_, w2.copier_⟩).set_impl a
        ⟨w2.ptr_, w2.copier_⟩).impl b = some ⟨w1.ptr_, w2.copier_⟩ :=
      (impl_set_impl_ne _ hab _).trans e2b
    have e3a := impl_set_impl_self e2a ⟨w2.ptr_, w2.copier_⟩
    have hsw : impl_ptr.swap a b s =
        some ((((s.set_impl a ⟨w2.ptr_, w1.copier_⟩).set_impl b ⟨w1.ptr_, w2.copier_⟩).set_impl a
          ⟨w2.ptr_, w2.copier_⟩).set_impl b ⟨w1.ptr_, w1.copier_⟩) := by
      simp only [impl_ptr.swap, unique_ptr.swap, uniq_member_eq h1, uniq_member_eq h2,
        set_uniq_member_eq h1, Option.bind_eq_bind, Option.some_bind, set_uniq_member_eq e1,
        e2a, e2b, e3b, Option.pure_def]
    refine ⟨_, hsw, ?_, ?_, rfl, rfl, rfl, ?_⟩
    · exact (impl_set_impl_ne _ hba _).trans e3a
    · exact impl_set_impl_self e3b _
    · intro j hja hjb
      rw [impl_set_impl_ne _ (fun h => hjb h.symm), impl_set_impl_ne _ (fun h => hja h.symm),
        impl_set_impl_ne _ (fun h => hjb h.symm), impl_set_impl_ne _ (fun h => hja h.symm)]

/-- C8: after `W1.swap(W2)`, and after the free `swap(W1, W2)`, `W1` is what
`W2` was and `W2` is what `W1` was (address, release strategy and duplication
strategy); the trace of strategy calls and the heap of instances are unchanged. -/
theorem swap_exchanges {T : Type} (s : State T) (a b : Nat) (w1 w2 : impl_ptr T)
    (h1 : s.impl a = some w1) (h2 : s.impl b = some w2) :
    (∃ s1, impl_ptr.swap a b s = some s1 ∧ s1.impl a = some w2 ∧ s1.impl b = some w1 ∧
      s1.trace = s.trace ∧ s1.heap = s.heap) ∧
    (∃ s1, swap a b s = some s1 ∧ s1.impl a = some w2 ∧ s1.impl b = some w1 ∧
      s1.trace = s.trace ∧ s1.heap = s.heap) := by
  obtain ⟨s1, hs, ha, hb, ht, hh, _, _⟩ := swap_obs h1 h2
  exact ⟨⟨s1, hs, ha, hb, ht, hh⟩, ⟨s1, hs, ha, hb, ht, hh⟩⟩

/-- C8, at a concrete input: objects 0 (address 1) and 1 (address 2) of `st3`. -/
theorem swap_exchanges_witness :
    (∃ s1, impl_ptr.swap 0 1 st3 = some s1 ∧ s1.impl 0 = some (impl_ptr.ctor_raw 2) ∧
      s1.impl 1 = some (impl_ptr.ctor_raw 1) ∧ s1.trace = st3.trace ∧
      s1.heap = st3.heap) ∧
    (∃ s1, swap 0 1 st3 = some s1 ∧ s1.impl 0 = some (impl_ptr.ctor_raw 2) ∧
      s1.impl 1 = some (impl_ptr.ctor_raw 1) ∧ s1.trace = st3.trace ∧
      s1.heap = st3.heap) :=
  swap_exchanges st3 0 1 (impl_ptr.ctor_raw 1) (impl_ptr.ctor_raw 2) rfl rfl

/-! ## Comparisons with the null sentinel -/

theorem operator_eq_of_null {T1 T2 : Type} (c1 c2 : ptr_conv) (l : impl_ptr T1)
    (r : impl_ptr T2) (hl : l.get = nullptr) (hr : r.get = nullptr) :
    operator_eq c1 c2 l r = true ∧ operator_ne c1 c2 l r = false := by
  simp [operator_eq, operator_ne, hl, hr, c1.map_null, c2.map_null]

/-- C9: a wrapper built by `impl_ptr()` or by `impl_ptr(nullptr)` is empty,
converts to false, equals the null sentinel on either side and is not unequal
to it; any two such wrappers, also of different instantiations (whatever the
conversions `c1`, `c2` to their common pointer type), are equal under `==` and
not unequal under `!=`. -/
theorem default_constructed_compare_equal (T1 T2 : Type) (c1 c2 : ptr_conv) :
    ((impl_ptr.ctor_default : impl_ptr T1).get = nullptr ∧
      (impl_ptr.ctor_default : impl_ptr T1).operator_bool = false ∧
      operator_eq_null (impl_ptr.ctor_default : impl_ptr T1) = true ∧
      null_operator_eq (impl_ptr.ctor_default : impl_ptr T1) = true ∧
      operator_ne_null (impl_ptr.ctor_default : impl_ptr T1) = false ∧
      null_operator_ne (impl_ptr.ctor_default : impl_ptr T1) = false) ∧
    ((impl_ptr.ctor_nullptr : impl_ptr T1).get = nullptr ∧
      (impl_ptr.ctor_nullptr : impl_ptr T1).operator_bool = false ∧
      operator_eq_null (impl_ptr.ctor_nullptr : impl_ptr T1) = true ∧
      null_operator_eq (impl_ptr.ctor_nullptr : impl_ptr T1) = true ∧
      operator_ne_null (impl_ptr.ctor_nullptr : impl_ptr T1) = false ∧
      null_operator_ne (impl_ptr.ctor_nullptr : impl_ptr T1) = false) ∧
    (operator_eq c1 c2 (impl_ptr.ctor_default : impl_ptr T1)
        (impl_ptr.ctor_default : impl_ptr T2) = true ∧
      operator_ne c1 c2 (impl_ptr.ctor_default : impl_ptr T1)
        (impl_ptr.ctor_default : impl_ptr T2) = false) ∧
    (operator_eq c1 c2 (impl_ptr.ctor_default : impl_ptr T1)
        (impl_ptr.ctor_nullptr : impl_ptr T2) = true ∧
      operator_ne c1 c2 (impl_ptr.ctor_default : impl_ptr T1)
        (impl_ptr.ctor_nullptr : impl_ptr T2) = false) ∧
    (operator_eq c1 c2 (impl_ptr.ctor_nullptr : impl_ptr T1)
        (impl_ptr.ctor_default : impl_ptr T2) = true ∧
      operator_ne c1 c2 (impl_ptr.ctor_nullptr : impl_ptr T1)
        (impl_ptr.ctor_default : impl_ptr T2) = false) ∧
    (operator_eq c1 c2 (impl_ptr.ctor_nullptr : impl_ptr T1)
        (impl_ptr.ctor_nullptr : impl_ptr T2) = true ∧
      operator_ne c1 c2 (impl_ptr.ctor_nullptr : impl_ptr T1)
        (impl_ptr.ctor_nullptr : impl_ptr T2) = false) ∧
    (operator_eq ptr_conv.same ptr_conv.same (impl_ptr.ctor_default : impl_ptr T1)
        (impl_ptr.ctor_default : impl_ptr T1) = true ∧
      operator_ne ptr_conv.same ptr_conv.same (impl_ptr.ctor_default : impl_ptr T1)
        (impl_ptr.ctor_default : impl_ptr T1) = false) :=
  ⟨⟨rfl, rfl, rfl, rfl, rfl, rfl⟩, ⟨rfl, rfl, rfl, rfl, rfl, rfl⟩,
    operator_eq_of_null c1 c2 _ _ rfl rfl, operator_eq_of_null c1 c2 _ _ rfl rfl,
    operator_eq_of_null c1 c2 _ _ rfl rfl, operator_eq_of_null c1 c2 _ _ rfl rfl,
    ⟨rfl, rfl⟩⟩

/-- C10: the boolean conversion of a wrapper is true exactly when `get()` is not
null, and each of the twelve comparisons with the null sentinel is decided by
emptiness: `p == nullptr`, `nullptr == p`, `p <= nullptr`, `nullptr >= p` hold
exactly for an empty `p`; `p != nullptr`, `nullptr != p`, `p > nullptr`,
`nullptr < p` exactly for a non-empty `p`; `p < nullptr` and `nullptr > p`
never; `p >= nullptr` and `nullptr <= p` always. -/
theorem null_comparisons_by_emptiness (T : Type) (p : impl_ptr T) :
    (p.operator_bool = true ↔ p.get ≠ nullptr) ∧
    (operator_eq_null p = true ↔ p.operator_bool = false) ∧
    (null_operator_eq p = true ↔ p.operator_bool = false) ∧
    (operator_le_null p = true ↔ p.operator_bool = false) ∧
    (null_operator_ge p = true ↔ p.operator_bool = false) ∧
    (operator_ne_null p = true ↔ p.operator_bool = true) ∧
    (null_operator_ne p = true ↔ p.operator_bool = true) ∧
    (operator_gt_null p = true ↔ p.operator_bool = true) ∧
    (null_operator_lt p = true ↔ p.operator_bool = true) ∧
    operator_lt_null p = false ∧ null_operator_gt p = false ∧
    operator_ge_null p = true ∧ null_operator_le p = true := by
  have hpos : 0 < p.ptr_.ptr ↔ ¬ p.ptr_.ptr = 0 := Nat.pos_iff_ne_zero
  simp [impl_ptr.operator_bool, unique_ptr.operator_bool, impl_ptr.get, unique_ptr.get,
    operator_eq_null, null_operator_eq, operator_le_null, null_operator_ge, operator_ne_null,
    null_operator_ne, operator_gt_null, null_operator_lt, operator_lt_null, null_operator_gt,
    operator_ge_null, null_operator_le, less, nullptr, hpos]

/-! ## Comparisons of two wrappers -/

theorem destructor_of_nonempty {T : Type} {s : State T} {t : Nat} {w : impl_ptr T}
    (hw : s.impl t = some w) (hne : w.get ≠ nullptr) {f : deleter_fn T} {h1 : Heap T}
    (hd : w.get_deleter = some f) (hf : f w.get s.heap = some h1) :
    impl_ptr.destructor t s =
      some { s with heap := h1, trace := s.trace ++ [Event.release f w.get],
                    impls := s.impls.set t none } := by
  simp only [impl_ptr.get, unique_ptr.get, impl_ptr.get_deleter, unique_ptr.get_deleter]
    at hne hd hf
  simp [impl_ptr.destructor, unique_ptr.destructor, hw, hne, hd, call_deleter, hf,
    impl_ptr.get, unique_ptr.get]

/-- C13: destroying a non-empty wrapper `(p, d, c)` calls `d` exactly once, on
`p`, and calls nothing else; destroying an empty wrapper calls nothing. A
wrapper that was moved from, and a wrapper on which `release()` was called,
are empty: their destruction leaves the trace as it was before the move or
the release. The destroyed object is dead afterwards. -/
theorem destructor_releases_once {T : Type} (s : State T) (this : Nat) (w : impl_ptr T)
    (hw : s.impl this = some w) :
    (∀ (f : deleter_fn T) (h1 : Heap T), w.get ≠ nullptr → w.get_deleter = some f →
      f w.get s.heap = some h1 →
      ∃ s1, impl_ptr.destructor this s = some s1 ∧
        s1.trace = s.trace ++ [Event.release f w.get] ∧ s1.heap = h1 ∧
        s1.impl this = none) ∧
    (w.get = nullptr →
      ∃ s1, impl_ptr.destructor this s = some s1 ∧ s1.trace = s.trace ∧
        s1.heap = s.heap ∧ s1.impl this = none) ∧
    (∃ n s1 s2, impl_ptr.move_ctor this s = some (n, s1) ∧
      impl_ptr.destructor this s1 = some s2 ∧ s2.trace = s.trace ∧ s2.heap = s.heap) ∧
    (∃ p s1 s2, impl_ptr.release this s = some (p, s1) ∧
      impl_ptr.destructor this s1 = some s2 ∧ s2.trace = s.trace ∧ s2.heap = s.heap) := by
  refine ⟨?_, ?_, ?_, ?_⟩
  · intro f h1 hne hd hf
    exact ⟨_, destructor_of_nonempty hw hne hd hf, rfl, rfl, impl_kill_self _ this⟩
  · intro hnull
    exact ⟨_, destructor_of_empty hw hnull, rfl, rfl, impl_kill_self _ this⟩
  · obtain ⟨n, s1, hm, _, hr, hh, ht⟩ := move_ctor_obs hw
    exact ⟨n, s1, _, hm, destructor_of_empty hr rfl, ht, hh⟩
  · have hr := impl_set_impl_self hw (impl_ptr.ctor nullptr w.get_deleter w.get_copier)
    exact ⟨_, _, _, release_member hw, destructor_of_empty hr rfl, rfl, rfl⟩

/-- C13, at concrete inputs: destroying object 1 of `st3` (address 2) calls
`default_delete` on 2; destroying the empty object 2 calls nothing. -/
theorem destructor_releases_once_witness :
    (∃ s1, impl_ptr.destructor 1 st3 = some s1 ∧
      s1.trace = [Event.release details.default_delete 2] ∧
      s1.heap = ⟨[(1, ⟨7⟩)]⟩ ∧ s1.impl 1 = none) ∧
    (∃ s1, impl_ptr.destructor 2 st3 = some s1 ∧ s1.trace = [] ∧
      s1.heap = st3.heap ∧ s1.impl 2 = none) :=
  ⟨(destructor_releases_once st3 1 (impl_ptr.ctor_raw 2) rfl).1 details.default_delete
      ⟨[(1, ⟨7⟩)]⟩ (by decide) rfl rfl,
   (destructor_releases_once st3 2 impl_ptr.ctor_default rfl).2.1 rfl⟩

/-! ## The factories -/

/-- C14: `make_impl<T>(args)` returns a non-empty wrapper over an address that
was not live before and now holds exactly `T(args)`; its release strategy is
`default_delete` and its duplication strategy is `default_copy`; no strategy
is called, no wrapper object is touched and every instance that was live
keeps its value. -/
theorem make_impl_spec {A T : Type} (mk : A → T) (args : A) (s : State T) :
    (make_impl mk args s).1.get ≠ nullptr ∧
    (make_impl mk args s).1.operator_bool = true ∧
    s.heap.read (make_impl mk args s).1.get = none ∧
    (make_impl mk args s).2.heap.read (make_impl mk args s).1.get = some (mk args) ∧
    (make_impl mk args s).1.get_deleter = some details.default_delete ∧
    (make_impl mk args s).1.get_copier = some details.default_copy ∧
    (make_impl mk args s).1 = impl_ptr.ctor_raw (make_impl mk args s).1.get ∧
    (make_impl mk args s).2.trace = s.trace ∧
    (make_impl mk args s).2.impls = s.impls ∧
    (∀ p v, s.heap.read p = some v → (make_impl mk args s).2.heap.read p = some v) := by
  have hne : s.heap.fresh ≠ nullptr := by simp [Heap.fresh, nullptr]
  refine ⟨hne, ?_, read_fresh s.heap, read_new_self s.heap (mk args), rfl, rfl, rfl, rfl,
    rfl, ?_⟩
  · show (s.heap.fresh != nullptr) = true
    simpa using hne
  · intro p v hv
    show (s.heap.new (mk args)).2.read p = some v
    rw [read_new_of_ne s.heap (mk args) (Nat.ne_of_lt (read_lt_fresh hv))]
    exact hv

/-! ## release_unique -/

/-- C15: `release_unique()` on a wrapper `(p, d, c)` returns the handle `(p, d)`,
leaves the wrapper empty and calls nothing; destroying the handle afterwards
calls `d` exactly once, on `p`, when `p` is not null, and nothing when it is. -/
theorem release_unique_spec {T : Type} (s : State T) (this : Nat) (w : impl_ptr T)
    (hw : s.impl this = some w) :
    ∃ u s1 w1, impl_ptr.release_unique this s = some (u, s1) ∧
      u.get = w.get ∧ u.get_deleter = w.get_deleter ∧
      s1.impl this = some w1 ∧ w1.get = nullptr ∧ w1.operator_bool = false ∧
      s1.trace = s.trace ∧ s1.heap = s.heap ∧
      (∀ (f : deleter_fn T) (h1 : Heap T), w.get ≠ nullptr → w.get_deleter = some f →
        f w.get s.heap = some h1 →
        ∃ s2, unique_ptr.destructor u s1 = some s2 ∧
          s2.trace = s.trace ++ [Event.release f w.get] ∧ s2.heap = h1) ∧
      (w.get = nullptr → unique_ptr.destructor u s1 = some s1) := by
  have hr := impl_set_impl_self hw (impl_ptr.ctor nullptr w.get_deleter w.get_copier)
  have hru : impl_ptr.release_unique this s =
      some (⟨w.get, w.get_deleter⟩,
        s.set_impl this (impl_ptr.ctor nullptr w.get_deleter w.get_copier)) := by
    simp only [impl_ptr.release_unique, unique_ptr.move_ctor, release_member hw,
      Option.bind_eq_bind, Option.some_bind, uniq_member_eq hr, Option.pure_def]
    rfl
  refine ⟨_, _, _, hru, rfl, rfl, hr, rfl, rfl, rfl, rfl, ?_, ?_⟩
  · intro f h1 hne hd hf
    simp only [impl_ptr.get, unique_ptr.get, impl_ptr.get_deleter, unique_ptr.get_deleter]
      at hne hd hf
    refine ⟨{ (s.set_impl this (impl_ptr.ctor nullptr w.get_deleter w.get_copier)) with
      heap := h1, trace := s.trace ++ [Event.release f w.get] }, ?_, rfl, rfl⟩
    simp [unique_ptr.destructor, impl_ptr.get, unique_ptr.get, impl_ptr.get_deleter,
      unique_ptr.get_deleter, hne, hd, call_deleter, State.set_impl, hf]
  · intro hnull
    simp only [impl_ptr.get, unique_ptr.get] at hnull
    simp [unique_ptr.destructor, impl_ptr.get, unique_ptr.get, hnull]

/-- C15, at a concrete input: object 1 of `st3` hands address 2 to a handle;
destroying the handle calls `default_delete` on 2. -/
theorem release_unique_spec_witness :
    ∃ u s1 s2, impl_ptr.release_unique 1 st3 = some (u, s1) ∧ u.get = 2 ∧
      (s1.impl 1).map impl_ptr.get = some nullptr ∧ s1.trace = [] ∧
      unique_ptr.destructor u s1 = some s2 ∧
      s2.trace = [Event.release details.default_delete 2] := by
  obtain ⟨u, s1, w1, h, hg, _, hw1, hn, _, ht, _, hd, _⟩ :=
    release_unique_spec st3 1 (impl_ptr.ctor_raw 2) rfl
  obtain ⟨s2, hs2, ht2, _⟩ := hd details.default_delete ⟨[(1, ⟨7⟩)]⟩ (by decide) rfl rfl
  exact ⟨u, s1, s2, h, hg, by rw [hw1, Option.map_some', hn], ht, hs2, ht2⟩

/-! ## The exclusive variant -/

theorem uniq_obj_new_uniq {T : Type} (s : State T) (u : unique_ptr T) :
    (s.new_uniq u).2.uniq (.obj s.uniqs.length) = some u := by
  simp [State.uniq, State.new_uniq]

theorem uniq_move_ctor_new {T : Type} (s : State T) (u : unique_ptr T) :
    unique_ptr.move_ctor (.obj s.uniqs.length) (s.new_uniq u).2 =
      some (u, { s with uniqs := s.uniqs ++ [some ⟨nullptr, u.deleter⟩] }) := by
  have hset : (s.uniqs ++ [some u]).set s.uniqs.length (some ⟨nullptr, u.deleter⟩) =
      s.uniqs ++ [some ⟨nullptr, u.deleter⟩] := by
    rw [List.set_append_right _ _ (Nat.le_refl _)]
    simp
  have h2 : ({ s with uniqs := s.uniqs ++ [some ⟨nullptr, u.deleter⟩] } : State T).uniq
      (.obj s.uniqs.length) = some ⟨nullptr, u.deleter⟩ := by
    simp [State.uniq]
  simp only [unique_ptr.move_ctor, unique_ptr.release, uniq_obj_new_uniq, State.set_uniq,
    Option.bind_eq_bind, Option.some_bind, Option.pure_def]
  simp only [State.new_uniq, hset, h2, Option.some_bind]

theorem getElem?_append_two_fst {α : Type} (l : List α) (a b : α) :
    (l ++ [a] ++ [b])[l.length]? = some a := by
  rw [List.getElem?_append_left (by simp)]
  exact List.getElem?_concat_length l a

theorem getElem?_append_two_snd {α : Type} (l : List α) (a b : α) :
    (l ++ [a] ++ [b])[l.length + 1]? = some b := by
  have h : (l ++ [a]).length = l.length + 1 := by simp
  rw [← h]
  exact List.getElem?_concat_length (l ++ [a]) b

/-- C16: from any state, for every field value `v`: after
`E1 = make_impl_nocopy(v, j)` and the move construction of `E2` from `E1`, the
handle `E1` is empty, `E2` owns the address the factory gave `E1`, with
`default_delete`, the instance there has the field `v`, and the trace of
strategy calls is as it was. -/
theorem move_exclusive_transfers (v j : Int) (s : State Private) :
    ∃ e1 e2 s1 u1 u2, move_exclusive v j s = some (e1, e2, s1) ∧ e1 ≠ e2 ∧
      s1.uniq (.obj e1) = some u1 ∧ u1.get = nullptr ∧ u1.operator_bool = false ∧
      s1.uniq (.obj e2) = some u2 ∧
      u2 = (make_impl_nocopy Private.ctor (v, j) s).1 ∧ u2.get ≠ nullptr ∧
      u2.get_deleter = some details.default_delete ∧
      (s1.heap.read u2.get).map Private.m_x = some v ∧ s1.trace = s.trace := by
  have hmv := uniq_move_ctor_new (make_impl_nocopy Private.ctor (v, j) s).2
    (make_impl_nocopy Private.ctor (v, j) s).1
  have hrun : move_exclusive v j s = some (s.uniqs.length, s.uniqs.length + 1,
      { (make_impl_nocopy Private.ctor (v, j) s).2 with
        uniqs := (s.uniqs ++ [some ⟨nullptr, some details.default_delete⟩]) ++
          [some (make_impl_nocopy Private.ctor (v, j) s).1] }) := by
    simp only [move_exclusive, Option.bind_eq_bind]
    show (unique_ptr.move_ctor (.obj (make_impl_nocopy Private.ctor (v, j) s).2.uniqs.length)
      _).bind _ = _
    rw [hmv]
    simp [State.new_uniq, make_impl_nocopy]
  refine ⟨_, _, _, ⟨nullptr, some details.default_delete⟩, _, hrun, Nat.ne_of_lt
    (Nat.lt_succ_self _), ?_, rfl, rfl, ?_, rfl, ?_, rfl, ?_, rfl⟩
  · show ((s.uniqs ++ [some ⟨nullptr, some details.default_delete⟩] ++ [_])[_]?).join = _
    rw [getElem?_append_two_fst]
    rfl
  · show ((s.uniqs ++ [some ⟨nullptr, some details.default_delete⟩] ++ [_])[_]?).join = _
    rw [getElem?_append_two_snd]
    rfl
  · show s.heap.fresh ≠ nullptr
    simp [Heap.fresh, nullptr]
  · show ((s.heap.new (Private.ctor (v, j))).2.read s.heap.fresh).map Private.m_x = some v
    rw [show (s.heap.new (Private.ctor (v, j))).2.read s.heap.fresh =
      some (Private.ctor (v, j)) from read_new_self _ _]
    rfl

/-- C16, at the value of the spec, `v = 3`, from the initial state: `E1` is
handle 0, `E2` is handle 1 and owns address 1, where `m_x = 3`. -/
theorem move_exclusive_transfers_witness :
    (∃ e1 e2 s1 u1 u2, move_exclusive 3 6 State.init = some (e1, e2, s1) ∧ e1 ≠ e2 ∧
      s1.uniq (.obj e1) = some u1 ∧ u1.get = nullptr ∧ u1.operator_bool = false ∧
      s1.uniq (.obj e2) = some u2 ∧
      u2 = (make_impl_nocopy Private.ctor (3, 6) State.init).1 ∧ u2.get ≠ nullptr ∧
      u2.get_deleter = some details.default_delete ∧
      (s1.heap.read u2.get).map Private.m_x = some 3 ∧ s1.trace = State.init.trace) ∧
    (∃ s1, move_exclusive 3 6 State.init = some (0, 1, s1) ∧
      (s1.uniq (.obj 0)).map unique_ptr.get = some nullptr ∧
      (s1.uniq (.obj 1)).map unique_ptr.get = some 1 ∧
      s1.heap.read 1 = some ⟨3⟩ ∧ s1.trace = []) :=
  ⟨move_exclusive_transfers 3 6 State.init, ⟨_, rfl, rfl, rfl, rfl, rfl⟩⟩

/-! ## The hash adapter -/

/-- C17: the hash of a wrapper is the pointer hash of `get()` and nothing else
enters it: wrappers that compare equal under `==` have equal hashes, whatever
their strategies; the wrapper `(p, d, c)` hashes as `p`; a clone hashes as the
address the clone owns; and under an injective pointer hash two wrappers with
different addresses have different hashes. -/
theorem hash_by_address {T : Type} (hash_pointer : pointer → Nat) (w : impl_ptr T) :
    std_hash hash_pointer w = hash_pointer w.get ∧
    (∀ l r : impl_ptr T, operator_eq ptr_conv.same ptr_conv.same l r = true →
      std_hash hash_pointer l = std_hash hash_pointer r) ∧
    (∀ (p : pointer) (d : deleter_type T) (c : copier_type T),
      std_hash hash_pointer (impl_ptr.ctor p d c) = hash_pointer p) ∧
    (∀ (s s1 : State T) (this : Nat) (w1 : impl_ptr T), s.impl this = some w →
      impl_ptr.clone this s = some (w1, s1) →
      std_hash hash_pointer w1 = hash_pointer w1.get ∧
      (Function.Injective hash_pointer → w1.get ≠ w.get →
        std_hash hash_pointer w1 ≠ std_hash hash_pointer w)) := by
  refine ⟨rfl, ?_, fun _ _ _ => rfl, ?_⟩
  · intro l r h
    have hlr : l.get = r.get := by simpa [operator_eq, ptr_conv.same] using h
    simp [std_hash, hlr]
  · intro s s1 this w1 _ _
    exact ⟨rfl, fun hinj hne heq => hne (hinj heq)⟩

/-- C17, at a concrete input, with the identity as pointer hash: object 0 of
`st3` (address 1) hashes as 1, its clone (address 3) as 3, and the two hashes differ. -/
theorem hash_by_address_witness :
    std_hash id (impl_ptr.ctor_raw 1 : impl_ptr Private) = 1 ∧
    std_hash id (impl_ptr.ctor_raw 3 : impl_ptr Private) = 3 ∧
    std_hash id (impl_ptr.ctor_raw 3 : impl_ptr Private) ≠
      std_hash id (impl_ptr.ctor_raw 1 : impl_ptr Private) :=
  ⟨(hash_by_address id (impl_ptr.ctor_raw 1 : impl_ptr Private)).1,
   ((hash_by_address id (impl_ptr.ctor_raw 1 : impl_ptr Private)).2.2.2 st3 _ 0 _ rfl rfl).1,
   ((hash_by_address id (impl_ptr.ctor_raw 1 : impl_ptr Private)).2.2.2 st3 _ 0 _ rfl rfl).2
     (fun _ _ h => h) (by decide)⟩

/-! ## swap, again -/

/-- C20: `a.swap(b)` and `b.swap(a)` end in the same wrappers, heap and trace;
`a.swap(b)` done twice gives every wrapper, `a` and `b` included, the address
and the strategies it had at the start; `a.swap(a)` leaves every wrapper as it was. -/
theorem swap_symmetric_involutive {T : Type} (s : State T) (a b : Nat)
    (w1 w2 : impl_ptr T) (h1 : s.impl a = some w1) (h2 : s.impl b = some w2) :
    (∃ s1 s2, impl_ptr.swap a b s = some s1 ∧ impl_ptr.swap b a s = some s2 ∧
      (∀ j, s1.impl j = s2.impl j) ∧ s1.heap = s2.heap ∧ s1.trace = s2.trace) ∧
    (∃ s1 s3, impl_ptr.swap a b s = some s1 ∧ impl_ptr.swap a b s1 = some s3 ∧
      s3.impl a = some w1 ∧ s3.impl b = some w2 ∧ (∀ j, s3.impl j = s.impl j) ∧
      s3.heap = s.heap ∧ s3.trace = s.trace) ∧
    (∃ s4, impl_ptr.swap a a s = some s4 ∧ s4.impl a = some w1 ∧
      (∀ j, s4.impl j = s.impl j) ∧ s4.heap = s.heap ∧ s4.trace = s.trace) := by
  obtain ⟨s1, hs1, ha1, hb1, ht1, hh1, _, hf1⟩ := swap_obs h1 h2
  obtain ⟨s2, hs2, hb2, ha2, ht2, hh2, _, hf2⟩ := swap_obs h2 h1
  obtain ⟨s3, hs3, ha3, hb3, ht3, hh3, _, hf3⟩ := swap_obs ha1 hb1
  obtain ⟨s4, hs4, ha4, _, ht4, hh4, _, hf4⟩ := swap_obs h1 h1
  refine ⟨⟨s1, s2, hs1, hs2, ?_, hh1.trans hh2.symm, ht1.trans ht2.symm⟩,
    ⟨s1, s3, hs1, hs3, ha3, hb3, ?_, hh3.trans hh1, ht3.trans ht1⟩,
    ⟨s4, hs4, ha4, ?_, hh4, ht4⟩⟩
  · intro j
    by_cases hja : j = a
    · rw [hja, ha1, ha2]
    · by_cases hjb : j = b
      · rw [hjb, hb1, hb2]
      · rw [hf1 j hja hjb, hf2 j hjb hja]
  · intro j
    by_cases hja : j = a
    · rw [hja, ha3, h1]
    · by_cases hjb : j = b
      · rw [hjb, hb3, h2]
      · rw [hf3 j hja hjb, hf1 j hja hjb]
  · intro j
    by_cases hja : j = a
    · rw [hja, ha4, h1]
    · rw [hf4 j hja hja]

/-- C20, at a concrete input: objects 0 and 1 of `st3`. -/
theorem swap_symmetric_involutive_witness :
    (∃ s1 s2, impl_ptr.swap 0 1 st3 = some s1 ∧ impl_ptr.swap 1 0 st3 = some s2 ∧
      (∀ j, s1.impl j = s2.impl j) ∧ s1.heap = s2.heap ∧ s1.trace = s2.trace) ∧
    (∃ s1 s3, impl_ptr.swap 0 1 st3 = some s1 ∧ impl_ptr.swap 0 1 s1 = some s3 ∧
      s3.impl 0 = some (impl_ptr.ctor_raw 1) ∧ s3.impl 1 = some (impl_ptr.ctor_raw 2) ∧
      (∀ j, s3.impl j = st3.impl j) ∧ s3.heap = st3.heap ∧ s3.trace = st3.trace) ∧
    (∃ s4, impl_ptr.swap 0 0 st3 = some s4 ∧ s4.impl 0 = some (impl_ptr.ctor_raw 1) ∧
      (∀ j, s4.impl j = st3.impl j) ∧ s4.heap = st3.heap ∧ s4.trace = st3.trace) :=
  swap_symmetric_involutive st3 0 1 (impl_ptr.ctor_raw 1) (impl_ptr.ctor_raw 2) rfl rfl

/-! ## The store, pointwise -/

theorem impl_length_none {T : Type} (s : State T) {j : Nat} (h : s.impls.length ≤ j) :
    s.impl j = none := by
  simp [State.impl, List.getElem?_eq_none h]

theorem impl_new_impl_pt {T : Type} (s : State T) (w : impl_ptr T) (j : Nat) :
    (s.new_impl w).2.impl j = if j = s.impls.length then some w else s.impl j := by
  by_cases hj : j = s.impls.length
  · rw [if_pos hj, hj]
    exact impl_new_impl_new s w
  · rw [if_neg hj]
    by_cases hlt : j < s.impls.length
    · show ((s.impls ++ [some w])[j]?).join = s.impls[j]?.join
      rw [List.getElem?_append_left hlt]
    · have hgt : s.impls.length + 1 ≤ j := by omega
      rw [impl_length_none s (by omega)]
      apply impl_length_none
      simpa [State.new_impl] using hgt

theorem impl_set_impl_pt {T : Type} {s : State T} {i : Nat} {w0 : impl_ptr T}
    (h : s.impl i = some w0) (w : impl_ptr T) (j : Nat) :
    (s.set_impl i w).impl j = if j = i then some w else s.impl j := by
  by_cases hj : j = i
  · rw [if_pos hj, hj]
    exact impl_set_impl_self h w
  · rw [if_neg hj]
    exact impl_set_impl_ne s (fun e => hj e.symm) w

theorem impl_kill_pt {T : Type} (s : State T) (t j : Nat) :
    ({ s with impls := s.impls.set t none } : State T).impl j =
      if j = t then none else s.impl j := by
  by_cases hj : j = t
  · rw [if_pos hj, hj]
    exact impl_kill_self s t
  · rw [if_neg hj]
    exact impl_kill_ne s (fun e => hj e.symm)

/-! ## Move and copy assignment, pointwise -/

/-- Move assignment to a distinct target, with every wrapper of the final state. -/
theorem move_assign_pt {T : Type} {s : State T} {this r : Nat} {a b : impl_ptr T}
    {f : deleter_fn T} {h1 : Heap T}
    (ha : s.impl r = some a) (hb : s.impl this = some b) (hne : this ≠ r)
    (hd : b.get ≠ nullptr → b.get_deleter = some f ∧ f b.get s.heap = some h1) :
    ∃ s1, impl_ptr.move_assign this r s = some s1 ∧
      (∀ j, s1.impl j = if j = this then some a
        else if j = r then some (impl_ptr.ctor nullptr a.get_deleter a.get_copier)
        else s.impl j) ∧
      s1.heap = (if b.get = nullptr then s.heap else h1) ∧
      s1.trace = s.trace ++ (if b.get = nullptr then [] else [Event.release f b.get]) ∧
      s1.uniqs = s.uniqs := by
  have hne1 : r ≠ this := fun h => hne h.symm
  have hb1 : (s.set_impl r (impl_ptr.ctor nullptr a.get_deleter a.get_copier)).impl this =
      some b := by rw [impl_set_impl_ne s hne1]; exact hb
  have hreset := reset_member hb1 a.get
  have hpt : ∀ (S : State T) (y : impl_ptr T),
      S.impls = ((s.set_impl r (impl_ptr.ctor nullptr a.get_deleter a.get_copier)).set_impl
        this y).impls →
      ∀ j, (S.set_impl this a).impl j = if j = this then some a
        else if j = r then some (impl_ptr.ctor nullptr a.get_deleter a.get_copier)
        else s.impl j := by
    intro S y hS j
    have hSt : S.impl this = some y := (impl_congr hS this).trans (impl_set_impl_self hb1 y)
    rw [impl_set_impl_pt hSt]
    by_cases hj : j = this
    · rw [if_pos hj, if_pos hj]
    · rw [if_neg hj, if_neg hj, impl_congr hS j, impl_set_impl_pt hb1, if_neg hj,
        impl_set_impl_pt ha]
  by_cases hnull : b.get = nullptr
  · rw [if_neg (not_not.mpr hnull)] at hreset
    have ht2 := impl_set_impl_self hb1 (impl_ptr.ctor a.get b.get_deleter b.get_copier)
    have hr2 : ((s.set_impl r (impl_ptr.ctor nullptr a.get_deleter a.get_copier)).set_impl this
        (impl_ptr.ctor a.get b.get_deleter b.get_copier)).impl r =
        some (impl_ptr.ctor nullptr a.get_deleter a.get_copier) := by
      rw [impl_set_impl_ne _ hne]
      exact impl_set_impl_self ha _
    refine ⟨_, move_assign_of_reset ha hreset hr2 ht2, hpt _ _ rfl, ?_, ?_, rfl⟩
    · rw [if_pos hnull]
      rfl
    · rw [if_pos hnull, List.append_nil]
      rfl
  · obtain ⟨hdel, hf⟩ := hd hnull
    rw [if_pos hnull, hdel] at hreset
    have hf1 : f b.get (((s.set_impl r (impl_ptr.ctor nullptr a.get_deleter
        a.get_copier)).set_impl this (impl_ptr.ctor a.get (some f) b.get_copier)).heap) =
        some h1 := hf
    rw [call_deleter_some hf1] at hreset
    have ht2 := impl_set_impl_self hb1 (impl_ptr.ctor a.get (some f) b.get_copier)
    have hr2 : ((s.set_impl r (impl_ptr.ctor nullptr a.get_deleter a.get_copier)).set_impl this
        (impl_ptr.ctor a.get (some f) b.get_copier)).impl r =
        some (impl_ptr.ctor nullptr a.get_deleter a.get_copier) := by
      rw [impl_set_impl_ne _ hne]
      exact impl_set_impl_self ha _
    refine ⟨_, move_assign_of_reset ha hreset hr2 ht2, hpt _ _ rfl, ?_, ?_, rfl⟩
    · rw [if_neg hnull]
      rfl
    · rw [if_neg hnull]
      rfl

/-- Move assignment of a wrapper to itself, with every wrapper of the final state. -/
theorem move_assign_self_pt {T : Type} {s : State T} {r : Nat} {a : impl_ptr T}
    (ha : s.impl r = some a) :
    ∃ s1, impl_ptr.move_assign r r s = some s1 ∧ (∀ j, s1.impl j = s.impl j) ∧
      s1.heap = s.heap ∧ s1.trace = s.trace ∧ s1.uniqs = s.uniqs := by
  have hb1 := impl_set_impl_self ha (impl_ptr.ctor nullptr a.get_deleter a.get_copier)
  have hreset := reset_member hb1 a.get
  have hz : ¬ ((impl_ptr.ctor nullptr a.get_deleter a.get_copier).get ≠ nullptr) :=
    not_not.mpr rfl
  rw [if_neg hz] at hreset
  have ht2 := impl_set_impl_self hb1
    (impl_ptr.ctor a.get (impl_ptr.ctor nullptr a.get_deleter a.get_copier).get_deleter
      (impl_ptr.ctor nullptr a.get_deleter a.get_copier).get_copier)
  refine ⟨_, move_assign_of_reset ha hreset ht2 ht2, ?_, rfl, rfl, rfl⟩
  intro j
  rw [impl_set_impl_pt ht2]
  by_cases hj : j = r
  · rw [if_pos hj, hj, ha]
    rfl
  · rw [if_neg hj, impl_set_impl_pt hb1, if_neg hj, impl_set_impl_pt ha, if_neg hj]

/-- The result of `clone()`, for an empty and for a non-empty wrapper at once. -/
theorem clone_obs {T : Type} {s : State T} {r : Nat} {x : impl_ptr T} {f : copier_fn T}
    {q : pointer} {h1 : Heap T} (hr : s.impl r = some x)
    (hdup : x.get ≠ nullptr → x.get_copier = some f ∧ f x.get s.heap = some (q, h1)) :
    ∃ s1, impl_ptr.clone r s =
        some (impl_ptr.ctor (if x.get = nullptr then nullptr else q) x.get_deleter
          x.get_copier, s1) ∧
      s1.impls = s.impls ∧ s1.uniqs = s.uniqs ∧
      s1.heap = (if x.get = nullptr then s.heap else h1) ∧
      s1.trace = s.trace ++ (if x.get = nullptr then [] else [Event.duplicate f x.get]) := by
  by_cases hnull : x.get = nullptr
  · refine ⟨s, ?_, rfl, rfl, ?_, ?_⟩
    · rw [if_pos hnull]
      exact clone_of_empty hr hnull
    · rw [if_pos hnull]
    · rw [if_pos hnull, List.append_nil]
  · obtain ⟨hc, hf⟩ := hdup hnull
    refine ⟨{ s with heap := h1, trace := s.trace ++ [Event.duplicate f x.get] }, ?_, rfl,
      rfl, ?_, ?_⟩
    · rw [if_neg hnull]
      exact clone_of_nonempty hr hnull hc hf
    · rw [if_neg hnull]
    · rw [if_neg hnull]

/-- Copy construction, with every wrapper of the final state: the new object
is the second one past the old store, the slot of the temporary is dead again. -/
theorem copy_ctor_pt {T : Type} {s s1 : State T} {r : Nat} {w1 : impl_ptr T}
    (hcl : impl_ptr.clone r s = some (w1, s1)) (hsame : s1.impls = s.impls) :
    ∃ s2, impl_ptr.copy_ctor r s = some (s.impls.length + 1, s2) ∧
      (∀ j, s2.impl j = if j = s.impls.length + 1 then some w1 else s.impl j) ∧
      s2.heap = s1.heap ∧ s2.trace = s1.trace ∧ s2.uniqs = s1.uniqs := by
  have hlen1 : s1.impls.length = s.impls.length := by rw [hsame]
  have ht : (s1.new_impl w1).2.impl s1.impls.length = some w1 := impl_new_impl_new s1 w1
  have hmv := move_ctor_eq ht
  have hE_t : (((s1.new_impl w1).2.set_impl s1.impls.length
      (impl_ptr.ctor nullptr w1.get_deleter w1.get_copier)).new_impl w1).2.impl
      s1.impls.length = some (impl_ptr.ctor nullptr w1.get_deleter w1.get_copier) :=
    impl_new_impl_old (impl_set_impl_self ht _) w1
  have hds := destructor_of_empty hE_t rfl
  have hlen : ((s1.new_impl w1).2.set_impl s1.impls.length
      (impl_ptr.ctor nullptr w1.get_deleter w1.get_copier)).impls.length =
      s.impls.length + 1 := by
    simp [State.new_impl, State.set_impl, hlen1]
  have hcc : impl_ptr.copy_ctor r s = some
      (s.impls.length + 1,
        { (((s1.new_impl w1).2.set_impl s1.impls.length
          (impl_ptr.ctor nullptr w1.get_deleter w1.get_copier)).new_impl w1).2 with
          impls := (((s1.new_impl w1).2.set_impl s1.impls.length
            (impl_ptr.ctor nullptr w1.get_deleter w1.get_copier)).new_impl w1).2.impls.set
              s1.impls.length none }) := by
    simp only [impl_ptr.copy_ctor, hcl, Option.bind_eq_bind, Option.some_bind]
    show (impl_ptr.move_ctor s1.impls.length (s1.new_impl w1).2).bind _ = _
    rw [hmv]
    simp only [Option.some_bind]
    show (impl_ptr.destructor s1.impls.length _).bind _ = _
    rw [hds]
    simp only [Option.some_bind, Option.pure_def]
    rw [← hlen]
    rfl
  refine ⟨_, hcc, ?_, rfl, rfl, rfl⟩
  intro j
  rw [impl_kill_pt, impl_new_impl_pt, hlen, impl_set_impl_pt ht, impl_new_impl_pt, hlen1,
    impl_congr hsame j]
  by_cases hj1 : j = s.impls.length + 1
  · have hj0 : j ≠ s.impls.length := by omega
    rw [if_neg hj0, if_pos hj1, if_pos hj1]
  · rw [if_neg hj1, if_neg hj1]
    by_cases hj0 : j = s.impls.length
    · rw [if_pos hj0, hj0, impl_length_none s (Nat.le_refl _)]
    · rw [if_neg hj0, if_neg hj0, if_neg hj0]

/-- Copy assignment between distinct wrapper objects, with every wrapper, the
heap and the trace of the final state; `q` and `h1` are what the duplication
call returns, `h2` is the heap the release call leaves. -/
theorem copy_assign_pt {T : Type} {s : State T} {this r : Nat} {b x : impl_ptr T}
    {f : copier_fn T} {q : pointer} {h1 : Heap T} {d : deleter_fn T} {h2 : Heap T}
    (hb : s.impl this = some b) (hr : s.impl r = some x) (hne : this ≠ r)
    (hdup : x.get ≠ nullptr → x.get_copier = some f ∧ f x.get s.heap = some (q, h1))
    (hrel : b.get ≠ nullptr → b.get_deleter = some d ∧
      d b.get (if x.get = nullptr then s.heap else h1) = some h2) :
    ∃ s1, impl_ptr.copy_assign this r s = some s1 ∧
      (∀ j, s1.impl j = if j = this then
          some (impl_ptr.ctor (if x.get = nullptr then nullptr else q) x.get_deleter
            x.get_copier)
        else s.impl j) ∧
      s1.heap = (if b.get = nullptr then (if x.get = nullptr then s.heap else h1) else h2) ∧
      s1.trace = (s.trace ++ (if x.get = nullptr then [] else [Event.duplicate f x.get])) ++
        (if b.get = nullptr then [] else [Event.release d b.get]) ∧
      s1.uniqs = s.uniqs := by
  obtain ⟨sc, hcl, himpls, huniqs, hheap, htrace⟩ := clone_obs hr hdup
  have hlen : sc.impls.length = s.impls.length := by rw [himpls]
  have hdt : (sc.new_impl (impl_ptr.ctor (if x.get = nullptr then nullptr else q)
      x.get_deleter x.get_copier)).2.impl sc.impls.length =
      some (impl_ptr.ctor (if x.get = nullptr then nullptr else q) x.get_deleter
        x.get_copier) := impl_new_impl_new sc _
  have hdb := impl_new_impl_old ((impl_congr himpls this).trans hb)
    (impl_ptr.ctor (if x.get = nullptr then nullptr else q) x.get_deleter x.get_copier)
  have hnt : this ≠ sc.impls.length := by
    rw [hlen]
    exact Nat.ne_of_lt (impl_lt_length hb)
  have hd1 : b.get ≠ nullptr → b.get_deleter = some d ∧
      d b.get (sc.new_impl (impl_ptr.ctor (if x.get = nullptr then nullptr else q)
        x.get_deleter x.get_copier)).2.heap = some h2 := by
    intro hbn
    refine ⟨(hrel hbn).1, ?_⟩
    show d b.get sc.heap = some h2
    rw [hheap]
    exact (hrel hbn).2
  obtain ⟨se, hma, hpt, hhe, hte, hue⟩ := move_assign_pt hdt hdb hnt hd1
  have het : se.impl sc.impls.length = some (impl_ptr.ctor nullptr
      (impl_ptr.ctor (if x.get = nullptr then nullptr else q) x.get_deleter
        x.get_copier).get_deleter
      (impl_ptr.ctor (if x.get = nullptr then nullptr else q) x.get_deleter
        x.get_copier).get_copier) := by
    rw [hpt, if_neg (fun e => hnt e.symm), if_pos rfl]
  have hds := destructor_of_empty het rfl
  have hca : impl_ptr.copy_assign this r s =
      some { se with impls := se.impls.set sc.impls.length none } := by
    simp only [impl_ptr.copy_assign, if_neg hne, hcl, Option.bind_eq_bind, Option.some_bind]
    show (impl_ptr.move_assign this sc.impls.length _).bind _ = _
    rw [hma]
    exact hds
  refine ⟨_, hca, ?_, ?_, ?_, ?_⟩
  · intro j
    rw [impl_kill_pt, hpt, impl_new_impl_pt, impl_congr himpls j, hlen]
    by_cases hjt : j = this
    · have hjl : j ≠ s.impls.length := by
        rw [hjt]
        exact Nat.ne_of_lt (impl_lt_length hb)
      rw [if_neg hjl, if_pos hjt, if_pos hjt]
    · rw [if_neg hjt, if_neg hjt]
      by_cases hjl : j = s.impls.length
      · rw [if_pos hjl, hjl, impl_length_none s (Nat.le_refl _)]
      · rw [if_neg hjl, if_neg hjl, if_neg hjl]
  · show se.heap = _
    rw [hhe]
    show (if b.get = nullptr then sc.heap else h2) = _
    rw [hheap]
  · show se.trace = _
    rw [hte]
    show sc.trace ++ _ = _
    rw [htrace]
  · show se.uniqs = _
    rw [hue]
    exact huniqs

theorem default_copy_inv {T : Type} {h h1 : Heap T} {p q : pointer}
    (hc : details.default_copy p h = some (q, h1)) :
    ∃ v, h.read p = some v ∧ q = h.fresh ∧ h1 = (h.new v).2 := by
  unfold details.default_copy at hc
  cases hr : h.read p with
  | none => simp [hr] at hc
  | some v =>
    simp only [hr, Option.some.injEq] at hc
    exact ⟨v, rfl, (congrArg Prod.fst hc).symm, (congrArg Prod.snd hc).symm⟩

theorem default_copy_of_live {T : Type} {h : Heap T} {p : pointer} {v : T}
    (hr : h.read p = some v) : details.default_copy p h = some (h.new v) := by
  simp [details.default_copy, hr]

/-- C18, refuted as stated: in `st_shared` the distinct objects 0 and 1 both own
address 1, where `m_x = 7`. After the copy assignment of object 0 from object 1,
object 1 still holds address 1, but the instance there has been released. -/
theorem copy_assign_shared_releases_source :
    (st_shared.impl 0).map impl_ptr.get = some 1 ∧
    (st_shared.impl 1).map impl_ptr.get = some 1 ∧
    st_shared.heap.read 1 = some ⟨7⟩ ∧
    (impl_ptr.copy_assign 0 1 st_shared).bind (fun s1 => (s1.impl 1).map impl_ptr.get) =
      some 1 ∧
    (impl_ptr.copy_assign 0 1 st_shared).map (fun s1 => s1.heap.read 1) = some none :=
  ⟨rfl, rfl, rfl, rfl, rfl⟩

/-- C18, amended: for distinct wrapper objects `w = (p, d, c)` and `r = (q, e, f)`
whose strategy calls are defined, `w = r` calls `f` exactly once, on `q`, when
`r` is non-empty and not at all when it is empty, then calls `d` exactly once,
on `p`, when `w` was non-empty, and nothing else; afterwards `w` is
`(f(q) or null, e, f)` and `r` has its address and strategies. With the
default strategies and `q` different from `p` the instance of `r` keeps its value. -/
theorem copy_assign_spec {T : Type} (s : State T) (this r : Nat) (b x : impl_ptr T)
    (f : copier_fn T) (q : pointer) (h1 : Heap T) (d : deleter_fn T) (h2 : Heap T)
    (hb : s.impl this = some b) (hr : s.impl r = some x) (hne : this ≠ r)
    (hdup : x.get ≠ nullptr → x.get_copier = some f ∧ f x.get s.heap = some (q, h1))
    (hrel : b.get ≠ nullptr → b.get_deleter = some d ∧
      d b.get (if x.get = nullptr then s.heap else h1) = some h2) :
    ∃ s1, impl_ptr.copy_assign this r s = some s1 ∧
      s1.impl this = some (impl_ptr.ctor (if x.get = nullptr then nullptr else q)
        x.get_deleter x.get_copier) ∧
      s1.impl r = some x ∧
      s1.trace = (s.trace ++ (if x.get = nullptr then [] else [Event.duplicate f x.get])) ++
        (if b.get = nullptr then [] else [Event.release d b.get]) ∧
      (f = details.default_copy → d = details.default_delete → x.get ≠ b.get →
        s1.heap.read x.get = s.heap.read x.get) := by
  obtain ⟨s1, hca, hpt, hheap, htrace, _⟩ := copy_assign_pt hb hr hne hdup hrel
  refine ⟨s1, hca, ?_, ?_, htrace, ?_⟩
  · rw [hpt, if_pos rfl]
  · rw [hpt, if_neg (fun e => hne e.symm)]
    exact hr
  · intro hf hd hxb
    have hc : (if x.get = nullptr then s.heap else h1).read x.get = s.heap.read x.get := by
      by_cases hx : x.get = nullptr
      · rw [if_pos hx]
      · rw [if_neg hx]
        have hcall := (hdup hx).2
        rw [hf] at hcall
        obtain ⟨v, hv, _, hh1⟩ := default_copy_inv hcall
        rw [hh1]
        exact read_new_of_ne s.heap v (Nat.ne_of_lt (read_lt_fresh hv))
    rw [hheap]
    by_cases hbn : b.get = nullptr
    · rw [if_pos hbn]
      exact hc
    · rw [if_neg hbn]
      have hdel := (hrel hbn).2
      rw [hd] at hdel
      rw [read_delete_of_ne hdel hxb]
      exact hc

/-- C18 amended, at a concrete input: in `st3`, object 1 (address 2, `m_x = 3`)
is copy-assigned from object 0 (address 1, `m_x = 7`): `default_copy` is called
on 1 and gives address 3, then `default_delete` is called on 2. -/
theorem copy_assign_spec_witness :
    ∃ s1, impl_ptr.copy_assign 1 0 st3 = some s1 ∧
      s1.impl 1 = some (impl_ptr.ctor_raw 3) ∧
      s1.impl 0 = some (impl_ptr.ctor_raw 1) ∧
      s1.trace = [Event.duplicate details.default_copy 1,
        Event.release details.default_delete 2] ∧
      s1.heap.read 1 = some ⟨7⟩ := by
  obtain ⟨s1, h, hw, hr, ht, hv⟩ := copy_assign_spec st3 1 0 (impl_ptr.ctor_raw 2)
    (impl_ptr.ctor_raw 1) details.default_copy 3 ⟨[(3, ⟨7⟩), (1, ⟨7⟩), (2, ⟨3⟩)]⟩
    details.default_delete ⟨[(3, ⟨7⟩), (1, ⟨7⟩)]⟩ rfl rfl (by decide)
    (fun _ => ⟨rfl, rfl⟩) (fun _ => ⟨rfl, rfl⟩)
  exact ⟨s1, h, hw, hr, ht, hv rfl rfl (by decide)⟩

/-! ## The ownership discipline is preserved -/

/-- Wrappers are moved between objects (object `i` of `g` holds what object
`σ i` of `f` held, or is empty or dead) and the heap keeps their instances. -/
theorem Owned_transfer {T : Type} {f g : Nat → Option (impl_ptr T)} {h h1 : Heap T}
    (hO : Owned f h) (σ : Nat → Nat) (hσ : Function.Injective σ)
    (hg : ∀ i w, g i = some w → w.get ≠ nullptr → f (σ i) = some w)
    (hl : ∀ i w, g i = some w → w.get ≠ nullptr →
      ∀ v, h.read w.get = some v → ∃ v1, h1.read w.get = some v1) :
    Owned g h1 := by
  refine ⟨?_, ?_⟩
  · intro i w hi hne
    obtain ⟨hd, hc, v, hv⟩ := hO.1 (σ i) w (hg i w hi hne) hne
    exact ⟨hd, hc, hl i w hi hne v hv⟩
  · intro i j wi wj hi hj hne heq
    have hnej : wj.get ≠ nullptr := fun e => hne (heq.trans e)
    exact hσ (hO.2 (σ i) (σ j) wi wj (hg i wi hi hne) (hg j wj hj hnej) hne heq)

/-- Object `k` takes a wrapper whose address no other object owns. -/
theorem Owned_update {T : Type} {f g : Nat → Option (impl_ptr T)} {h h1 : Heap T}
    (hO : Owned f h) (k : Nat) (x : Option (impl_ptr T))
    (hg : ∀ j, g j = if j = k then x else f j)
    (hl : ∀ i w, i ≠ k → f i = some w → w.get ≠ nullptr → ∃ v, h1.read w.get = some v)
    (hx : ∀ w, x = some w → w.get ≠ nullptr →
      w.get_deleter = some details.default_delete ∧
      w.get_copier = some details.default_copy ∧ (∃ v, h1.read w.get = some v) ∧
      ∀ j wj, j ≠ k → f j = some wj → wj.get ≠ w.get) :
    Owned g h1 := by
  refine ⟨?_, ?_⟩
  · intro i w hi hne
    rw [hg] at hi
    by_cases hik : i = k
    · rw [if_pos hik] at hi
      obtain ⟨hd, hc, hv, _⟩ := hx w hi hne
      exact ⟨hd, hc, hv⟩
    · rw [if_neg hik] at hi
      obtain ⟨hd, hc, _⟩ := hO.1 i w hi hne
      exact ⟨hd, hc, hl i w hik hi hne⟩
  · intro i j wi wj hi hj hne heq
    rw [hg] at hi hj
    by_cases hik : i = k
    · by_cases hjk : j = k
      · rw [hik, hjk]
      · rw [if_pos hik] at hi
        rw [if_neg hjk] at hj
        exact absurd heq.symm ((hx wi hi hne).2.2.2 j wj hjk hj)
    · by_cases hjk : j = k
      · rw [if_neg hik] at hi
        rw [if_pos hjk] at hj
        have hnej : wj.get ≠ nullptr := fun e => hne (heq.trans e)
        exact absurd heq ((hx wj hj hnej).2.2.2 i wi hik hi)
      · rw [if_neg hik] at hi
        rw [if_neg hjk] at hj
        exact hO.2 i j wi wj hi hj hne heq

theorem Owned_congr {T : Type} {f g : Nat → Option (impl_ptr T)} {h : Heap T}
    (hO : Owned f h) (hg : ∀ j, g j = f j) : Owned g h := by
  have : g = f := funext hg
  rw [this]
  exact hO

/-- Object `k` takes an empty wrapper, or dies. -/
theorem Owned_put_empty {T : Type} {f g : Nat → Option (impl_ptr T)} {h : Heap T}
    (hO : Owned f h) (k : Nat) (x : Option (impl_ptr T))
    (hx : ∀ w, x = some w → w.get = nullptr)
    (hg : ∀ j, g j = if j = k then x else f j) : Owned g h :=
  Owned_update hO k x hg (fun i w _ hi hne => (hO.1 i w hi hne).2.2)
    (fun w hw hne => absurd (hx w hw) hne)

/-- Object `k` takes a wrapper with the default strategies over the address
`new` has just returned. -/
theorem Owned_adopt_fresh {T : Type} {f g : Nat → Option (impl_ptr T)} {h : Heap T}
    (hO : Owned f h) (k : Nat) (v : T)
    (hg : ∀ j, g j = if j = k then some (impl_ptr.ctor h.fresh
      (some details.default_delete) (some details.default_copy)) else f j) :
    Owned g (h.new v).2 := by
  refine Owned_update hO k _ hg ?_ ?_
  · intro i w _ hi hne
    obtain ⟨_, _, v0, hv0⟩ := hO.1 i w hi hne
    exact ⟨v0, (read_new_of_ne h v (Nat.ne_of_lt (read_lt_fresh hv0))).trans hv0⟩
  · intro w hw _
    have hw1 := (Option.some.inj hw).symm
    subst hw1
    refine ⟨rfl, rfl, ⟨v, read_new_self h v⟩, ?_⟩
    intro j wj _ hj heq
    have hfr : h.fresh ≠ nullptr := by simp [Heap.fresh, nullptr]
    have hne : wj.get ≠ nullptr := fun e => hfr (heq.symm.trans e)
    obtain ⟨_, _, v0, hv0⟩ := hO.1 j wj hj hne
    exact absurd heq (Nat.ne_of_lt (read_lt_fresh hv0))

/-- Object `k` takes the wrapper of object `r`, and `r` is left empty. -/
theorem Owned_move {T : Type} {f g : Nat → Option (impl_ptr T)} {h h1 : Heap T}
    (hO : Owned f h) {k r : Nat} {a e : impl_ptr T} (hr : f r = some a) (hkr : k ≠ r)
    (he : e.get = nullptr)
    (hg : ∀ j, g j = if j = k then some a else if j = r then some e else f j)
    (hl : ∀ i w, i ≠ k → f i = some w → w.get ≠ nullptr →
      ∀ v, h.read w.get = some v → ∃ v1, h1.read w.get = some v1) :
    Owned g h1 := by
  have hcases : ∀ i w, g i = some w → w.get ≠ nullptr →
      f (Equiv.swap k r i) = some w ∧ Equiv.swap k r i ≠ k := by
    intro i w hi hne
    rw [hg] at hi
    by_cases hik : i = k
    · rw [if_pos hik] at hi
      rw [hik, Equiv.swap_apply_left, ← Option.some.inj hi]
      exact ⟨hr, fun e1 => hkr e1.symm⟩
    · rw [if_neg hik] at hi
      by_cases hir : i = r
      · rw [if_pos hir] at hi
        rw [← Option.some.inj hi] at hne
        exact absurd he hne
      · rw [if_neg hir] at hi
        rw [Equiv.swap_apply_of_ne_of_ne hik hir]
        exact ⟨hi, hik⟩
  refine Owned_transfer hO (Equiv.swap k r) (Equiv.swap k r).injective
    (fun i w hi hne => (hcases i w hi hne).1) ?_
  intro i w hi hne v hv
  exact hl _ w (hcases i w hi hne).2 (hcases i w hi hne).1 hne v hv

theorem Owned_ctor_empty {T : Type} {s : State T} (hO : Owned s.impl s.heap)
    (S : State T) (hS : S.impls = s.impls) (hh : S.heap = s.heap) (w : impl_ptr T)
    (hw : w.get = nullptr) :
    Owned (S.new_impl w).2.impl (S.new_impl w).2.heap := by
  have hg : ∀ j, (S.new_impl w).2.impl j = if j = s.impls.length then some w else s.impl j := by
    intro j
    rw [impl_new_impl_pt, hS, impl_congr hS j]
  have := Owned_put_empty hO s.impls.length (some w)
    (fun w1 hw1 => by rw [← Option.some.inj hw1]; exact hw) hg
  rw [show (S.new_impl w).2.heap = s.heap from hh]
  exact this

/-- The result of `clone()` in a disciplined state, and the state after the
clone has become a new object. -/
theorem Owned_clone {T : Type} {s : State T} (hO : Owned s.impl s.heap) {this : Nat}
    {x : impl_ptr T} (hx : s.impl this = some x) :
    ∃ w s1, impl_ptr.clone this s = some (w, s1) ∧ s1.impls = s.impls ∧
      ((w.get = nullptr ∧ s1.heap = s.heap) ∨
        (∃ v, w = impl_ptr.ctor s.heap.fresh (some details.default_delete)
          (some details.default_copy) ∧ s1.heap = (s.heap.new v).2)) := by
  by_cases hnull : x.get = nullptr
  · exact ⟨_, s, clone_of_empty hx hnull, rfl, Or.inl ⟨rfl, rfl⟩⟩
  · obtain ⟨hd, hc, v, hv⟩ := hO.1 this x hx hnull
    refine ⟨_, _, clone_of_nonempty hx hnull hc (default_copy_of_live hv), rfl,
      Or.inr ⟨v, ?_, rfl⟩⟩
    rw [hd, hc]

theorem Owned_clone_new {T : Type} {s : State T} (hO : Owned s.impl s.heap) {this : Nat}
    {x : impl_ptr T} (hx : s.impl this = some x) :
    ∃ w s1, impl_ptr.clone this s = some (w, s1) ∧
      Owned (s1.new_impl w).2.impl (s1.new_impl w).2.heap := by
  obtain ⟨w, s1, hcl, hS, hcase⟩ := Owned_clone hO hx
  refine ⟨w, s1, hcl, ?_⟩
  rcases hcase with ⟨hw, hh⟩ | ⟨v, hw, hh⟩
  · exact Owned_ctor_empty hO s1 hS hh w hw
  · have hg : ∀ j, (s1.new_impl w).2.impl j = if j = s.impls.length then
        some (impl_ptr.ctor s.heap.fresh (some details.default_delete)
          (some details.default_copy)) else s.impl j := by
      intro j
      rw [impl_new_impl_pt, hS, impl_congr hS j, hw]
    have := Owned_adopt_fresh hO s.impls.length v hg
    rw [show (s1.new_impl w).2.heap = (s.heap.new v).2 from hh]
    exact this

theorem Owned_copy_ctor {T : Type} {s : State T} (hO : Owned s.impl s.heap) {r : Nat}
    {x : impl_ptr T} (hx : s.impl r = some x) :
    ∃ n s1, impl_ptr.copy_ctor r s = some (n, s1) ∧ Owned s1.impl s1.heap := by
  obtain ⟨w, sc, hcl, hS, hcase⟩ := Owned_clone hO hx
  obtain ⟨s2, hcc, hpt, hh2, _, _⟩ := copy_ctor_pt hcl hS
  refine ⟨_, s2, hcc, ?_⟩
  rcases hcase with ⟨hw, hh⟩ | ⟨v, hw, hh⟩
  · rw [hh2, hh]
    exact Owned_put_empty hO (s.impls.length + 1) (some w)
      (fun w1 hw1 => by rw [← Option.some.inj hw1]; exact hw) hpt
  · rw [hh2, hh]
    refine Owned_adopt_fresh hO (s.impls.length + 1) v ?_
    intro j
    rw [hpt, hw]

theorem Owned_copy_assign {T : Type} {s : State T} (hO : Owned s.impl s.heap)
    {this r : Nat} {b x : impl_ptr T} (hb : s.impl this = some b) (hx : s.impl r = some x) :
    ∃ s1, impl_ptr.copy_assign this r s = some s1 ∧ Owned s1.impl s1.heap := by
  by_cases hne : this = r
  · refine ⟨s, ?_, hO⟩
    simp [impl_ptr.copy_assign, hne, hx]
  · -- what the duplication call returns
    have hQ : ∃ q h1, (x.get ≠ nullptr → x.get_copier = some details.default_copy ∧
        details.default_copy x.get s.heap = some (q, h1)) ∧
        (x.get ≠ nullptr → q = s.heap.fresh ∧ ∃ v, h1 = (s.heap.new v).2) := by
      by_cases hxn : x.get = nullptr
      · exact ⟨nullptr, s.heap, fun h => absurd hxn h, fun h => absurd hxn h⟩
      · obtain ⟨_, hc, v, hv⟩ := hO.1 r x hx hxn
        exact ⟨s.heap.fresh, (s.heap.new v).2, fun _ => ⟨hc, default_copy_of_live hv⟩,
          fun _ => ⟨rfl, v, rfl⟩⟩
    obtain ⟨q, h1, hdup, hq⟩ := hQ
    -- the heap after the duplication keeps every live instance
    have hlive : ∀ p v, s.heap.read p = some v →
        (if x.get = nullptr then s.heap else h1).read p = some v := by
      intro p v hv
      by_cases hxn : x.get = nullptr
      · rw [if_pos hxn]
        exact hv
      · rw [if_neg hxn]
        obtain ⟨_, v0, hh1⟩ := hq hxn
        rw [hh1, read_new_of_ne s.heap v0 (Nat.ne_of_lt (read_lt_fresh hv))]
        exact hv
    -- what the release call leaves
    have hR : ∃ h2, b.get ≠ nullptr → b.get_deleter = some details.default_delete ∧
        details.default_delete b.get (if x.get = nullptr then s.heap else h1) = some h2 := by
      by_cases hbn : b.get = nullptr
      · exact ⟨s.heap, fun h => absurd hbn h⟩
      · obtain ⟨hd, _, v, hv⟩ := hO.1 this b hb hbn
        obtain ⟨h2, hh2⟩ := delete_of_live (hlive _ v hv)
        exact ⟨h2, fun _ => ⟨hd, hh2⟩⟩
    obtain ⟨h2, hrel⟩ := hR
    obtain ⟨s1, hca, hpt, hheap, _, _⟩ := copy_assign_pt hb hx hne hdup hrel
    -- an instance other than the released one is live at the end
    have hkeep : ∀ p v, s.heap.read p = some v → (b.get ≠ nullptr → p ≠ b.get) →
        ∃ v1, s1.heap.read p = some v1 := by
      intro p v hv hpb
      rw [hheap]
      by_cases hbn : b.get = nullptr
      · rw [if_pos hbn]
        exact ⟨v, hlive p v hv⟩
      · rw [if_neg hbn]
        have hdel : (if x.get = nullptr then s.heap else h1).delete b.get = some h2 :=
          (hrel hbn).2
        exact ⟨v, (read_delete_of_ne hdel (hpb hbn)).trans (hlive p v hv)⟩
    refine ⟨s1, hca, Owned_update hO this _ hpt ?_ ?_⟩
    · intro i w hi hw hwn
      obtain ⟨_, _, v, hv⟩ := hO.1 i w hw hwn
      refine hkeep _ v hv ?_
      intro hbn heq
      exact hi (hO.2 this i b w hb hw hbn heq.symm).symm
    · intro w hw hwn
      have hw1 := (Option.some.inj hw).symm
      subst hw1
      have hxn : x.get ≠ nullptr := by
        intro hxn
        apply hwn
        show (if x.get = nullptr then nullptr else q) = nullptr
        rw [if_pos hxn]
      have hget : (impl_ptr.ctor (if x.get = nullptr then nullptr else q) x.get_deleter
          x.get_copier).get = s.heap.fresh := by
        show (if x.get = nullptr then nullptr else q) = s.heap.fresh
        rw [if_neg hxn]
        exact (hq hxn).1
      obtain ⟨hd, hc, _, _⟩ := hO.1 r x hx hxn
      refine ⟨hd, hc, ?_, ?_⟩
      · rw [hget, hheap]
        obtain ⟨_, v0, hh1⟩ := hq hxn
        have hfresh : (if x.get = nullptr then s.heap else h1).read s.heap.fresh = some v0 := by
          rw [if_neg hxn, hh1]
          exact read_new_self s.heap v0
        by_cases hbn : b.get = nullptr
        · rw [if_pos hbn]
          exact ⟨v0, hfresh⟩
        · rw [if_neg hbn]
          obtain ⟨_, _, vb, hvb⟩ := hO.1 this b hb hbn
          have hdel : (if x.get = nullptr then s.heap else h1).delete b.get = some h2 :=
            (hrel hbn).2
          exact ⟨v0, (read_delete_of_ne hdel (Nat.ne_of_gt (read_lt_fresh hvb))).trans hfresh⟩
      · intro j wj _ hj heq
        rw [hget] at heq
        have hfr : s.heap.fresh ≠ nullptr := by simp [Heap.fresh, nullptr]
        have hjn : wj.get ≠ nullptr := fun e => hfr (heq.symm.trans e)
        obtain ⟨_, _, v0, hv0⟩ := hO.1 j wj hj hjn
        exact absurd heq (Nat.ne_of_lt (read_lt_fresh hv0))

theorem Owned_move_ctor {T : Type} {s : State T} (hO : Owned s.impl s.heap) {r : Nat}
    {x : impl_ptr T} (hx : s.impl r = some x) :
    ∃ n s1, impl_ptr.move_ctor r s = some (n, s1) ∧ Owned s1.impl s1.heap := by
  refine ⟨_, _, move_ctor_eq hx, ?_⟩
  have hg : ∀ j, ((s.set_impl r (impl_ptr.ctor nullptr x.get_deleter x.get_copier)).new_impl
      x).2.impl j = if j = s.impls.length then some x
        else if j = r then some (impl_ptr.ctor nullptr x.get_deleter x.get_copier)
        else s.impl j := by
    intro j
    rw [impl_new_impl_pt, impl_set_impl_pt hx]
    simp [State.set_impl]
  exact Owned_move hO hx (Nat.ne_of_gt (impl_lt_length hx))
    (show (impl_ptr.ctor nullptr x.get_deleter x.get_copier).get = nullptr from rfl) hg
    (fun _ _ _ _ _ v hv => ⟨v, hv⟩)

theorem Owned_move_assign {T : Type} {s : State T} (hO : Owned s.impl s.heap)
    {this r : Nat} {b x : impl_ptr T} (hb : s.impl this = some b) (hx : s.impl r = some x) :
    ∃ s1, impl_ptr.move_assign this r s = some s1 ∧ Owned s1.impl s1.heap := by
  by_cases hne : this = r
  · subst hne
    obtain ⟨s1, hm, hpt, hh, _, _⟩ := move_assign_self_pt hx
    refine ⟨s1, hm, ?_⟩
    rw [hh]
    exact Owned_congr hO hpt
  · have hR : ∃ h1, b.get ≠ nullptr → b.get_deleter = some details.default_delete ∧
        details.default_delete b.get s.heap = some h1 := by
      by_cases hbn : b.get = nullptr
      · exact ⟨s.heap, fun h => absurd hbn h⟩
      · obtain ⟨hd, _, v, hv⟩ := hO.1 this b hb hbn
        obtain ⟨h1, hh1⟩ := delete_of_live hv
        exact ⟨h1, fun _ => ⟨hd, hh1⟩⟩
    obtain ⟨h1, hrel⟩ := hR
    obtain ⟨s1, hm, hpt, hh, _, _⟩ := move_assign_pt hx hb hne hrel
    refine ⟨s1, hm, Owned_move hO hx hne
      (show (impl_ptr.ctor nullptr x.get_deleter x.get_copier).get = nullptr from rfl) hpt ?_⟩
    intro i w hi hw hwn v hv
    rw [hh]
    by_cases hbn : b.get = nullptr
    · rw [if_pos hbn]
      exact ⟨v, hv⟩
    · rw [if_neg hbn]
      have hdel : s.heap.delete b.get = some h1 := (hrel hbn).2
      have hwb : w.get ≠ b.get := fun heq => hi (hO.2 this i b w hb hw hbn heq.symm).symm
      exact ⟨v, (read_delete_of_ne hdel hwb).trans hv⟩

theorem Owned_swap {T : Type} {s : State T} (hO : Owned s.impl s.heap) {a b : Nat}
    {x y : impl_ptr T} (hx : s.impl a = some x) (hy : s.impl b = some y) :
    ∃ s1, impl_ptr.swap a b s = some s1 ∧ Owned s1.impl s1.heap := by
  obtain ⟨s1, hs, ha, hb, _, hh, _, hfr⟩ := swap_obs hx hy
  refine ⟨s1, hs, ?_⟩
  rw [hh]
  refine Owned_transfer hO (Equiv.swap a b) (Equiv.swap a b).injective ?_
    (fun _ _ _ _ v hv => ⟨v, hv⟩)
  intro i w hi _
  by_cases hia : i = a
  · rw [hia, Equiv.swap_apply_left, hy, ← ha, ← hia]
    exact hi
  · by_cases hib : i = b
    · rw [hib, Equiv.swap_apply_right, hx, ← hb, ← hib]
      exact hi
    · rw [Equiv.swap_apply_of_ne_of_ne hia hib, ← hfr i hia hib]
      exact hi

theorem release_unique_eq {T : Type} {s : State T} {this : Nat} {w : impl_ptr T}
    (hw : s.impl this = some w) :
    impl_ptr.release_unique this s =
      some (⟨w.get, w.get_deleter⟩,
        s.set_impl this (impl_ptr.ctor nullptr w.get_deleter w.get_copier)) := by
  have hr := impl_set_impl_self hw (impl_ptr.ctor nullptr w.get_deleter w.get_copier)
  simp only [impl_ptr.release_unique, unique_ptr.move_ctor, release_member hw,
    Option.bind_eq_bind, Option.some_bind, uniq_member_eq hr, Option.pure_def]
  rfl

theorem Owned_emptied {T : Type} {s : State T} (hO : Owned s.impl s.heap) {this : Nat}
    {x : impl_ptr T} (hx : s.impl this = some x) :
    Owned (s.set_impl this (impl_ptr.ctor nullptr x.get_deleter x.get_copier)).impl s.heap :=
  Owned_put_empty hO this (some (impl_ptr.ctor nullptr x.get_deleter x.get_copier))
    (fun w hw => by rw [← Option.some.inj hw]; rfl) (impl_set_impl_pt hx _)

theorem Owned_destructor {T : Type} {s : State T} (hO : Owned s.impl s.heap) {this : Nat}
    {x : impl_ptr T} (hx : s.impl this = some x) :
    ∃ s1, impl_ptr.destructor this s = some s1 ∧ Owned s1.impl s1.heap := by
  by_cases hnull : x.get = nullptr
  · refine ⟨_, destructor_of_empty hx hnull, ?_⟩
    exact Owned_put_empty hO this none (fun w hw => by cases hw) (impl_kill_pt s this)
  · obtain ⟨hd, _, v, hv⟩ := hO.1 this x hx hnull
    obtain ⟨h1, hh1⟩ := delete_of_live hv
    have hf : details.default_delete x.get s.heap = some h1 := hh1
    refine ⟨_, destructor_of_nonempty hx hnull hd hf, ?_⟩
    refine Owned_update hO this none (impl_kill_pt _ this) ?_ (fun w hw => by cases hw)
    intro i w hi hw hwn
    obtain ⟨_, _, v0, hv0⟩ := hO.1 i w hw hwn
    have hwx : w.get ≠ x.get := fun heq => hi (hO.2 this i x w hx hw hnull heq.symm).symm
    exact ⟨v0, (read_delete_of_ne hh1 hwx).trans hv0⟩

/-- Every operation of `Step` keeps the ownership discipline. -/
theorem Owned_step {T : Type} {s s1 : State T} (hst : Step s s1)
    (hO : Owned s.impl s.heap) : Owned s1.impl s1.heap := by
  cases hst with
  | ctor_default => exact Owned_ctor_empty hO s rfl rfl _ rfl
  | ctor_nullptr => exact Owned_ctor_empty hO s rfl rfl _ rfl
  | make_impl mk args =>
    exact Owned_adopt_fresh hO s.impls.length (mk args) (fun j => impl_new_impl_pt _ _ j)
  | clone _ s0 this x w hx hcl =>
    obtain ⟨w1, s2, hcl1, hO1⟩ := Owned_clone_new hO hx
    obtain ⟨hw, hs⟩ := Prod.mk.inj (Option.some.inj (hcl.symm.trans hcl1))
    rw [hw, hs]
    exact hO1
  | copy_ctor _ _ r n x hx hcc =>
    obtain ⟨n1, s2, hcc1, hO1⟩ := Owned_copy_ctor hO hx
    obtain ⟨_, hs⟩ := Prod.mk.inj (Option.some.inj (hcc.symm.trans hcc1))
    rw [hs]
    exact hO1
  | copy_assign _ _ this r b x hb hx hca =>
    obtain ⟨s2, hca1, hO1⟩ := Owned_copy_assign hO hb hx
    rw [Option.some.inj (hca.symm.trans hca1)]
    exact hO1
  | move_ctor _ _ r n x hx hmc =>
    obtain ⟨n1, s2, hmc1, hO1⟩ := Owned_move_ctor hO hx
    obtain ⟨_, hs⟩ := Prod.mk.inj (Option.some.inj (hmc.symm.trans hmc1))
    rw [hs]
    exact hO1
  | move_assign _ _ this r b x hb hx hma =>
    obtain ⟨s2, hma1, hO1⟩ := Owned_move_assign hO hb hx
    rw [Option.some.inj (hma.symm.trans hma1)]
    exact hO1
  | move_assign_conv _ _ this r b x hb hx hma =>
    obtain ⟨s2, hma1, hO1⟩ := Owned_move_assign hO hb hx
    have hma2 : impl_ptr.move_assign this r s = some s1 := hma
    rw [Option.some.inj (hma2.symm.trans hma1)]
    exact hO1
  | swap _ _ a b x y hx hy hsw =>
    obtain ⟨s2, hsw1, hO1⟩ := Owned_swap hO hx hy
    rw [Option.some.inj (hsw.symm.trans hsw1)]
    exact hO1
  | release _ _ this p x hx hrl =>
    have hrl1 : impl_ptr.release this s = some (x.get, _) := release_member hx
    obtain ⟨_, hs⟩ := Prod.mk.inj (Option.some.inj (hrl.symm.trans hrl1))
    rw [hs]
    exact Owned_emptied hO hx
  | release_unique _ s0 this u x hx hru =>
    obtain ⟨_, hs⟩ := Prod.mk.inj (Option.some.inj (hru.symm.trans (release_unique_eq hx)))
    rw [hs]
    exact Owned_emptied hO hx
  | destructor _ _ this x hx hds =>
    obtain ⟨s2, hds1, hO1⟩ := Owned_destructor hO hx
    rw [Option.some.inj (hds.symm.trans hds1)]
    exact hO1

theorem Owned_init {T : Type} : Owned (State.init : State T).impl (State.init : State T).heap := by
  refine ⟨?_, ?_⟩
  · intro i w hi
    simp [State.impl, State.init] at hi
  · intro i j wi wj hi
    simp [State.impl, State.init] at hi

/-- Every reachable state keeps the ownership discipline. -/
theorem Owned_reachable {T : Type} {s : State T} (hr : Reachable s) :
    Owned s.impl s.heap := by
  induction hr with
  | init => exact Owned_init
  | step s0 s1 _ hst ih => exact Owned_step hst ih

theorem reachable_st_copied : Reachable st_copied :=
  Reachable.step st_made st_copied
    (Reachable.step State.init st_made Reachable.init
      (Step.make_impl Private.ctor (7, 6) State.init))
    (Step.copy_ctor st_made st_copied 0 2 (impl_ptr.ctor_raw 1) rfl rfl)

/-! ## Exclusive ownership in reachable states -/

/-- C12, refuted as stated: `st_shared` is reached by `make_impl` followed by the
construction of a second wrapper from the raw address `W1.get()`; its distinct
live objects 0 and 1 both own address 1. -/
theorem raw_address_ctor_shares_instance :
    st_shared = (st_made.new_impl (impl_ptr.ctor_raw 1)).2 ∧
    (st_made.impl 0).map impl_ptr.get = some 1 ∧
    (st_shared.impl 0).map impl_ptr.get = some 1 ∧
    (st_shared.impl 1).map impl_ptr.get = some 1 ∧
    (st_shared.impl 1).map impl_ptr.operator_bool = some true :=
  ⟨rfl, rfl, rfl, rfl, rfl⟩

/-- C12, amended: in every state reached from the initial state through the
operations that take no raw address from the caller (empty construction, the
factory `make_impl`, `clone`, copy and move construction and assignment, `swap`,
`get`, `release`, `release_unique`, destruction), no two distinct live wrappers
own the same non-null address, and every owned address is a live instance. -/
theorem reachable_exclusive_ownership {T : Type} (s : State T) (hr : Reachable s) :
    (∀ i j wi wj, s.impl i = some wi → s.impl j = some wj → wi.get ≠ nullptr →
      wi.get = wj.get → i = j) ∧
    (∀ i w, s.impl i = some w → w.get ≠ nullptr → ∃ v, s.heap.read w.get = some v) :=
  ⟨(Owned_reachable hr).2, fun i w hi hne => ((Owned_reachable hr).1 i w hi hne).2.2⟩

/-- C12 amended, at a concrete reachable state: in `st_copied` the objects 0 and
2 own different addresses, and the address of object 0 is live. -/
theorem reachable_exclusive_ownership_witness :
    Reachable st_copied ∧
    ¬ ((st_copied.impl 0).map impl_ptr.get = (st_copied.impl 2).map impl_ptr.get) ∧
    ∃ v, st_copied.heap.read 1 = some v :=
  ⟨reachable_st_copied,
   fun h => absurd
     ((reachable_exclusive_ownership st_copied reachable_st_copied).1 0 2
       (impl_ptr.ctor_raw 1) (impl_ptr.ctor_raw 2) rfl rfl (by decide)
       (Option.some.inj h))
     (by decide),
   (reachable_exclusive_ownership st_copied reachable_st_copied).2 0
     (impl_ptr.ctor_raw 1) rfl (by decide)⟩

/-! ## Strategies travel with the address -/

/-- C19: in every state reached from the initial state through empty
construction, `make_impl`, `clone`, copy and move construction and assignment,
`swap`, `release`, `release_unique` and destruction, a non-empty wrapper has
the default release and duplication strategies, so a wrapper with a null
strategy is empty; and `clone`, copy construction, copy assignment from it and
destruction of any live wrapper are defined: no call goes through a null strategy. -/
theorem reachable_strategies_default {T : Type} (s : State T) (hr : Reachable s)
    (i : Nat) (w : impl_ptr T) (hi : s.impl i = some w) :
    (w.get ≠ nullptr → w.get_deleter = some details.default_delete ∧
      w.get_copier = some details.default_copy) ∧
    ((w.get_deleter = none ∨ w.get_copier = none) → w.get = nullptr) ∧
    (∃ w1 s1, impl_ptr.clone i s = some (w1, s1)) ∧
    (∃ n s1, impl_ptr.copy_ctor i s = some (n, s1)) ∧
    (∀ j wj, s.impl j = some wj → ∃ s1, impl_ptr.copy_assign j i s = some s1) ∧
    (∃ s1, impl_ptr.destructor i s = some s1) := by
  have hO := Owned_reachable hr
  refine ⟨fun hne => ⟨(hO.1 i w hi hne).1, (hO.1 i w hi hne).2.1⟩, ?_, ?_, ?_, ?_, ?_⟩
  · intro hnone
    by_contra hne
    obtain ⟨hd, hc, _⟩ := hO.1 i w hi hne
    rcases hnone with h | h
    · rw [hd] at h
      cases h
    · rw [hc] at h
      cases h
  · obtain ⟨w1, s1, h, _⟩ := Owned_clone hO hi
    exact ⟨w1, s1, h⟩
  · obtain ⟨n, s1, h, _⟩ := Owned_copy_ctor hO hi
    exact ⟨n, s1, h⟩
  · intro j wj hj
    obtain ⟨s1, h, _⟩ := Owned_copy_assign hO hj hi
    exact ⟨s1, h⟩
  · obtain ⟨s1, h, _⟩ := Owned_destructor hO hi
    exact ⟨s1, h⟩

/-- C19, at a concrete reachable state: object 2 of `st_copied`, the copy. -/
theorem reachable_strategies_default_witness :
    Reachable st_copied ∧
    (impl_ptr.ctor_raw 2 : impl_ptr Private).get_deleter = some details.default_delete ∧
    (impl_ptr.ctor_raw 2 : impl_ptr Private).get_copier = some details.default_copy ∧
    (∃ w1 s1, impl_ptr.clone 2 st_copied = some (w1, s1)) ∧
    (∃ s1, impl_ptr.destructor 2 st_copied = some s1) :=
  ⟨reachable_st_copied,
   ((reachable_strategies_default st_copied reachable_st_copied 2 (impl_ptr.ctor_raw 2)
      rfl).1 (by decide)).1,
   ((reachable_strategies_default st_copied reachable_st_copied 2 (impl_ptr.ctor_raw 2)
      rfl).1 (by decide)).2,
   (reachable_strategies_default st_copied reachable_st_copied 2 (impl_ptr.ctor_raw 2)
      rfl).2.2.1,
   (reachable_strategies_default st_copied reachable_st_copied 2 (impl_ptr.ctor_raw 2)
      rfl).2.2.2.2.2⟩

end spimpl
